import Mathlib

/-!
Verification development for the type inference engine in
`src/rustc/middle/typeck/infer.rs`.

The engine is shallowly embedded: the mutable `smallintmap` stores become
association lists threaded through every operation, recursion that the source
justifies by store acyclicity is given an explicit fuel parameter (`none`
meaning divergence or a `fail`/`bug` abort, which no theorem's inputs reach),
and the externally interned `ty::t` values become an inductive covering the
constructors the inference code pattern-matches on.
-/

deriving instance DecidableEq for Except

namespace Infer

/-- Modelled from the spec: mutability qualifiers of the external `ast` module
(`m_mutbl`, `m_imm`, `m_const`). -/
inductive Mutability : Type
  | m_mutbl
  | m_imm
  | m_const
deriving DecidableEq, Repr

/-- Modelled from the spec: the four region shapes of the external `ty` module
plus region inference variables (`ty::region`). -/
inductive Region : Type
  | re_static
  | re_bound (id : Nat)
  | re_free (id : Nat) (name : Nat)
  | re_scope (id : Nat)
  | re_var (vid : Nat)
deriving DecidableEq, Repr

/-- Modelled from the spec: vector/string storage classes (`ty::vstore`). -/
inductive Vstore : Type
  | vstore_fixed (n : Nat)
  | vstore_uniq
  | vstore_box
  | vstore_slice (r : Region)
deriving DecidableEq, Repr

/-- Modelled from the spec: the structural view `ty::get(t).struct` of interned
types, restricted to a sub-grammar of the constructors the inference code in
`infer.rs` dispatches on (`bot`, scalars, the pointer shapes, vectors,
strings, and type variables).  The `mt` record `{ty, mutbl}` is flattened
into the constructor arguments. -/
inductive Ty : Type
  | ty_bot
  | ty_int (k : Nat)
  | ty_str
  | ty_box (t : Ty) (m : Mutability)
  | ty_uniq (t : Ty) (m : Mutability)
  | ty_vec (t : Ty) (m : Mutability)
  | ty_rptr (r : Region) (t : Ty) (m : Mutability)
  | ty_evec (t : Ty) (m : Mutability) (vs : Vstore)
  | ty_estr (vs : Vstore)
  | ty_var (vid : Nat)
deriving DecidableEq, Repr

/-- The `ty::mt` record (a type together with a mutability). -/
structure Mt : Type where
  ty : Ty
  mutbl : Mutability
deriving DecidableEq, Repr

/-- Kind tag of a vstore mismatch error (`ty::terr_vstore_kind`). -/
inductive VKind : Type
  | terr_vec
  | terr_str
deriving DecidableEq, Repr

/-- The subset of `ty::type_err` produced by the embedded operations. -/
inductive TyErr : Type
  | terr_mutability
  | terr_sorts (b : Ty) (a : Ty)
  | terr_regions_differ (b : Region) (a : Region)
  | terr_vstores_differ (k : VKind) (b : Vstore) (a : Vstore)
deriving DecidableEq, Repr

/-- `fixup_err` from the source. -/
inductive FixupErr : Type
  | unresolved_ty (v : Nat)
  | cyclic_ty (v : Nat)
  | unresolved_region (v : Nat)
  | cyclic_region (v : Nat)
deriving DecidableEq, Repr

/-- `bounds<T>` from the source: optional lower and upper bound. -/
structure Bounds (T : Type) : Type where
  lb : Option T
  ub : Option T
deriving DecidableEq, Repr

/-- `var_value<V,T>` from the source. -/
inductive VarValue (T : Type) : Type
  | redirect (v : Nat)
  | bounded (b : Bounds T)
deriving DecidableEq, Repr

/-- `vals_and_bindings<V,T>` from the source: the value map (`smallintmap`,
here an association list where the most recent insert is found first) and the
mutation journal (a stack, most recent entry at the head). -/
structure VB (T : Type) : Type where
  vals : List (Nat × VarValue T)
  bindings : List (Nat × VarValue T)
deriving DecidableEq, Repr

/-- Insert (overwrite) a key in the value map; lookup takes the first hit, so
prepending models `smallintmap::insert`. -/
def insertV {T : Type} (k : Nat) (v : VarValue T) (vals : List (Nat × VarValue T)) :
    List (Nat × VarValue T) :=
  (k, v) :: vals

/-- The `infer_ctxt` record: type-variable store, region-variable store, and
the `borrowings` table of the external type context (mutated by
assignability).  The variable counters play no role in the embedded
operations and are omitted. -/
structure Ctxt : Type where
  vb : VB Ty
  rb : VB Region
  borrowings : List (Nat × Nat)
deriving DecidableEq, Repr

/-- A fresh inference context, as built by `new_infer_ctxt`. -/
def freshCtxt : Ctxt := ⟨⟨[], []⟩, ⟨[], []⟩, []⟩

/-- The `get` operation of `unify_methods`, with explicit fuel for the
redirect-chain recursion.  Note the source's pattern `some(redirect(vid))`
shadows the parameter `vid`, so the path-compression insert targets the
redirect *target*, not the node `get` was entered at; the embedding mirrors
that exactly. -/
def getF {T : Type} : Nat → VB T → Nat → Option ((Nat × Bounds T) × VB T)
  | 0, _, _ => none
  | fuel + 1, vb, vid =>
    match vb.vals.lookup vid with
    | none =>
      let bnds : Bounds T := ⟨none, none⟩
      some ((vid, bnds), { vb with vals := insertV vid (.bounded bnds) vb.vals })
    | some (.redirect tgt) =>
      match getF fuel vb tgt with
      | none => none
      | some ((root, bnds), vb1) =>
        let vb2 := if root ≠ tgt then { vb1 with vals := insertV tgt (.redirect root) vb1.vals }
                   else vb1
        some ((root, bnds), vb2)
    | some (.bounded bnds) => some ((vid, bnds), vb)

/-- Canonical entry point for `get`: in an acyclic store a redirect chain
visits at most one node per distinct key, so `vals.length + 1` fuel always
suffices; a cyclic store (on which the source diverges) yields `none`. -/
def get {T : Type} (vb : VB T) (vid : Nat) : Option ((Nat × Bounds T) × VB T) :=
  getF (vb.vals.length + 1) vb vid

/-- The `set` operation of `unify_methods`: read the prior value (the source's
`vb.vals.get` fails on an absent key, modelled by `none`), push it on the
journal, and overwrite. -/
def set {T : Type} (vb : VB T) (vid : Nat) (newv : VarValue T) : Option (VB T) :=
  match vb.vals.lookup vid with
  | none => none
  | some oldv =>
    some { vals := insertV vid newv vb.vals, bindings := (vid, oldv) :: vb.bindings }

/-- The loop of `rollback_to` inside `try`, walking the journal list: pop
entries past `len` and re-insert each prior value. -/
def rollbackL {T : Type} (len : Nat) :
    List (Nat × VarValue T) → List (Nat × VarValue T) →
      List (Nat × VarValue T) × List (Nat × VarValue T)
  | vals, [] => (vals, [])
  | vals, (vid, oldv) :: rest =>
    if rest.length + 1 ≤ len then (vals, (vid, oldv) :: rest)
    else rollbackL len (insertV vid oldv vals) rest

/-- The `rollback_to` loop inside `try`: pop journal entries past `len` and
re-insert each prior value. -/
def rollback_to {T : Type} (vb : VB T) (len : Nat) : VB T :=
  let p := rollbackL len vb.vals vb.bindings
  ⟨p.1, p.2⟩

/-- The `try` combinator of `infer_ctxt` (named `tryF` because `try` is a
reserved word): record both journal lengths, run `f`, and on failure roll both
stores back. -/
def tryF {E A : Type} (f : Ctxt → Option (Except E A × Ctxt)) (c : Ctxt) :
    Option (Except E A × Ctxt) :=
  let vbl := c.vb.bindings.length
  let rbl := c.rb.bindings.length
  match f c with
  | none => none
  | some (r, c1) =>
    match r with
    | .ok a => some (.ok a, c1)
    | .error e => some (.error e, { c1 with vb := rollback_to c1.vb vbl, rb := rollback_to c1.rb rbl })

/-- The `commit` combinator: assert both journals empty (an assertion failure
is `none`), run `tryF`, and clear the journals on the way out. -/
def commit {E A : Type} (f : Ctxt → Option (Except E A × Ctxt)) (c : Ctxt) :
    Option (Except E A × Ctxt) :=
  if c.vb.bindings.length = 0 ∧ c.rb.bindings.length = 0 then
    match tryF f c with
    | none => none
    | some (r, c1) =>
      some (r, { c1 with vb := { c1.vb with bindings := [] }, rb := { c1.rb with bindings := [] } })
  else none

/-- Combiner result type (`cres<T>` in the source). -/
abbrev cres (T : Type) := Except TyErr T

/-- Unit result type (`ures` in the source). -/
abbrev ures := Except TyErr Unit

/-- The region oracle `region::nearest_common_ancestor` over `tcx.region_map`,
an external collaborator, threaded as a parameter. -/
abbrev RM := Nat → Nat → Option Nat

/-- The `chain` combinator of `result`, threaded through the context: on
`ok` continue, on `error` stop with the state reached so far, on `none`
(divergence or panic) propagate. -/
def chain {A B : Type} (x : Option (Except TyErr A × Ctxt))
    (f : A → Ctxt → Option (Except TyErr B × Ctxt)) : Option (Except TyErr B × Ctxt) :=
  match x with
  | none => none
  | some (.error e, c) => some (.error e, c)
  | some (.ok a, c) => f a c

/-- The three combiners (`enum sub`, `enum lub`, `enum glb`). -/
inductive Cmb : Type
  | sub
  | lub
  | glb
deriving DecidableEq, Repr

/-- The `st` iface (`sub`, `lub`, `glb` on `T`, closed over their fuel)
together with the store lens (`vb` for types, `rb` for regions) that the
generic variable operations of `unify_methods` need. -/
structure VarOps (T : Type) : Type where
  subo : Ctxt → T → T → Option (ures × Ctxt)
  lubo : Ctxt → T → T → Option (cres T × Ctxt)
  glbo : Ctxt → T → T → Option (cres T × Ctxt)
  getvb : Ctxt → VB T
  putvb : VB T → Ctxt → Ctxt

/-- The `bnds` method of `unify_methods`. -/
def bnds {T : Type} (ops : VarOps T) (c : Ctxt) (a b : Option T) : Option (ures × Ctxt) :=
  match a, b with
  | none, none => some (.ok (), c)
  | some _, none => some (.ok (), c)
  | none, some _ => some (.ok (), c)
  | some t_a, some t_b => ops.subo c t_a t_b

/-- The `merge_bnd` method: combine two optional bounds with a lattice op. -/
def merge_bnd {T : Type} (c : Ctxt) (a b : Option T)
    (merge_op : Ctxt → T → T → Option (cres T × Ctxt)) :
    Option (cres (Option T) × Ctxt) :=
  match a, b with
  | none, none => some (.ok none, c)
  | some _, none => some (.ok a, c)
  | none, some _ => some (.ok b, c)
  | some v_a, some v_b => chain (merge_op c v_a v_b) (fun v c1 => some (.ok (some v), c1))

/-- The `set_var_to_merged_bounds` method: relate the cross bounds, take the
glb of the upper and the lub of the lower bounds, check the result coherent,
and commit it with `set`. -/
def set_var_to_merged_bounds {T : Type} (ops : VarOps T) (c : Ctxt) (v_id : Nat)
    (a b : Bounds T) : Option (ures × Ctxt) :=
  chain (bnds ops c a.lb b.ub) (fun _ c1 =>
  chain (bnds ops c1 b.lb a.ub) (fun _ c2 =>
  chain (merge_bnd c2 a.ub b.ub ops.glbo) (fun ub1 c3 =>
  chain (merge_bnd c3 a.lb b.lb ops.lubo) (fun lb1 c4 =>
  chain (bnds ops c4 lb1 ub1) (fun _ c5 =>
    match set (ops.getvb c5) v_id (.bounded ⟨lb1, ub1⟩) with
    | none => none
    | some vb1 => some (.ok (), ops.putvb vb1 c5))))))

/-- The `vars` method (`relate_vars` in the spec): find both roots, succeed if
equal, otherwise try the decoupled `a.ub <: b.lb` check, otherwise redirect
`b`'s root to `a`'s root and merge the bounds there. -/
def vars {T : Type} (ops : VarOps T) (c : Ctxt) (a_id b_id : Nat) : Option (ures × Ctxt) :=
  match get (ops.getvb c) a_id with
  | none => none
  | some ((a_id1, a_bounds), vb1) =>
    let c1 := ops.putvb vb1 c
    match get (ops.getvb c1) b_id with
    | none => none
    | some ((b_id1, b_bounds), vb2) =>
      let c2 := ops.putvb vb2 c1
      if a_id1 = b_id1 then some (.ok (), c2)
      else
        let merge : Ctxt → Option (ures × Ctxt) := fun c3 =>
          match set (ops.getvb c3) b_id1 (.redirect a_id1) with
          | none => none
          | some vb3 =>
            chain (set_var_to_merged_bounds ops (ops.putvb vb3 c3) a_id1 a_bounds b_bounds)
              (fun _ c4 => some (.ok (), c4))
        match a_bounds.ub, b_bounds.lb with
        | some a_ub, some b_lb =>
          match tryF (fun c3 => ops.subo c3 a_ub b_lb) c2 with
          | none => none
          | some (.ok _, c3) => some (.ok (), c3)
          | some (.error _, c3) => merge c3
        | _, _ => merge c2

/-- The `vart` method (`relate_var_ground`): `var <: t`. -/
def vart {T : Type} (ops : VarOps T) (c : Ctxt) (a_id : Nat) (b : T) : Option (ures × Ctxt) :=
  match get (ops.getvb c) a_id with
  | none => none
  | some ((a_id1, a_bounds), vb1) =>
    set_var_to_merged_bounds ops (ops.putvb vb1 c) a_id1 a_bounds ⟨none, some b⟩

/-- The `tvar` method (`relate_ground_var`): `t <: var`. -/
def tvar {T : Type} (ops : VarOps T) (c : Ctxt) (a : T) (b_id : Nat) : Option (ures × Ctxt) :=
  match get (ops.getvb c) b_id with
  | none => none
  | some ((b_id1, b_bounds), vb1) =>
    set_var_to_merged_bounds ops (ops.putvb vb1 c) b_id1 ⟨some a, none⟩ b_bounds

/-- The `bnd` method of the `lattice_ops` iface: `ub` for lub, `lb` for glb. -/
def latticeBnd {T : Type} (cmb : Cmb) (b : Bounds T) : Option T :=
  match cmb with
  | .lub => b.ub
  | .glb => b.lb
  | .sub => none

/-- The `with_bnd` method of `lattice_ops`. -/
def latticeWith {T : Type} (cmb : Cmb) (b : Bounds T) (t : T) : Bounds T :=
  match cmb with
  | .lub => { b with ub := some t }
  | .glb => { b with lb := some t }
  | .sub => b

/-- The `lattice_vars` helper shared by lub and glb. -/
def lattice_vars {T : Type} (ops : VarOps T) (bnd : Bounds T → Option T) (c : Ctxt)
    (a_t : T) (a_vid b_vid : Nat)
    (c_ts : Ctxt → T → T → Option (cres T × Ctxt)) : Option (cres T × Ctxt) :=
  match get (ops.getvb c) a_vid with
  | none => none
  | some ((a_vid1, a_bounds), vb1) =>
    let c1 := ops.putvb vb1 c
    match get (ops.getvb c1) b_vid with
    | none => none
    | some ((b_vid1, b_bounds), vb2) =>
      let c2 := ops.putvb vb2 c1
      if a_vid1 = b_vid1 then some (.ok a_t, c2)
      else
        let merge : Ctxt → Option (cres T × Ctxt) := fun c3 =>
          chain (vars ops c3 a_vid1 b_vid1) (fun _ c4 => some (.ok a_t, c4))
        match bnd a_bounds, bnd b_bounds with
        | some a_ty, some b_ty =>
          match tryF (fun c3 => c_ts c3 a_ty b_ty) c2 with
          | none => none
          | some (.ok t, c3) => some (.ok t, c3)
          | some (.error _, c3) => merge c3
        | _, _ => merge c2

/-- The `lattice_var_t` helper shared by lub and glb. -/
def lattice_var_t {T : Type} (ops : VarOps T) (bnd : Bounds T → Option T)
    (with_bnd : Bounds T → T → Bounds T) (c : Ctxt) (a_id : Nat) (b : T)
    (c_ts : Ctxt → T → T → Option (cres T × Ctxt)) : Option (cres T × Ctxt) :=
  match get (ops.getvb c) a_id with
  | none => none
  | some ((a_id1, a_bounds), vb1) =>
    let c1 := ops.putvb vb1 c
    match bnd a_bounds with
    | some a_bnd => c_ts c1 a_bnd b
    | none =>
      let a_bounds1 := with_bnd a_bounds b
      chain (bnds ops c1 a_bounds1.lb a_bounds1.ub) (fun _ c2 =>
        match set (ops.getvb c2) a_id1 (.bounded a_bounds1) with
        | none => none
        | some vb2 => some (.ok b, ops.putvb vb2 c2))

/-- Build the `st` instance for `ty::t` from the three combiners
(`impl of st for ty::t`). -/
def mkTyOps (t : Cmb → Ctxt → Ty → Ty → Option (cres Ty × Ctxt)) : VarOps Ty :=
  { subo := fun c a b => chain (t .sub c a b) (fun _ c1 => some (.ok (), c1))
    lubo := t .lub
    glbo := t .glb
    getvb := Ctxt.vb
    putvb := fun vb c => { c with vb := vb } }

/-- Build the `st` instance for `ty::region` (`impl of st for ty::region`). -/
def mkReOps (t : Cmb → Ctxt → Region → Region → Option (cres Region × Ctxt)) : VarOps Region :=
  { subo := fun c a b => chain (t .sub c a b) (fun _ c1 => some (.ok (), c1))
    lubo := t .lub
    glbo := t .glb
    getvb := Ctxt.rb
    putvb := fun rb c => { c with rb := rb } }

mutual

/-- The `tys` methods of the three combiners: `sub.tys` dispatches on bot and
variables and defers to `super_tys`; `lub.tys`/`glb.tys` are `lattice_tys`. -/
def tysC (rm : RM) : Nat → Cmb → Ctxt → Ty → Ty → Option (cres Ty × Ctxt)
  | 0, _, _, _, _ => none
  | fuel + 1, cmb, c, a, b =>
    let tops := mkTyOps (fun k c1 x y => tysC rm fuel k c1 x y)
    if a = b then some (.ok a, c)
    else
      match cmb with
      | .sub =>
        match a, b with
        | .ty_bot, _ => some (.ok a, c)
        | .ty_var a_id, .ty_var b_id =>
          chain (vars tops c a_id b_id) (fun _ c1 => some (.ok a, c1))
        | .ty_var a_id, _ =>
          chain (vart tops c a_id b) (fun _ c1 => some (.ok a, c1))
        | _, .ty_var b_id =>
          chain (tvar tops c a b_id) (fun _ c1 => some (.ok a, c1))
        | _, .ty_bot => some (.error (.terr_sorts b a), c)
        | _, _ => super_tys rm fuel cmb c a b
      | .lub | .glb =>
        match a, b with
        | .ty_bot, _ =>
          match cmb with
          | .glb => some (.ok .ty_bot, c)
          | _ => some (.ok b, c)
        | _, .ty_bot =>
          match cmb with
          | .glb => some (.ok .ty_bot, c)
          | _ => some (.ok a, c)
        | .ty_var a_id, .ty_var b_id =>
          lattice_vars tops (latticeBnd cmb) c a a_id b_id
            (fun c1 x y => tysC rm fuel cmb c1 x y)
        | .ty_var a_id, _ =>
          lattice_var_t tops (latticeBnd cmb) (latticeWith cmb) c a_id b
            (fun c1 x y => tysC rm fuel cmb c1 x y)
        | _, .ty_var b_id =>
          lattice_var_t tops (latticeBnd cmb) (latticeWith cmb) c b_id a
            (fun c1 x y => tysC rm fuel cmb c1 x y)
        | _, _ => super_tys rm fuel cmb c a b

/-- The shared `super_tys` structural walk, restricted to the embedded
sub-grammar.  The external `ty::mach_sty` is injective on the embedded scalar
shapes and is modelled by structural equality.  The `bug` aborts on bot and
variable inputs are modelled by `none`. -/
def super_tys (rm : RM) : Nat → Cmb → Ctxt → Ty → Ty → Option (cres Ty × Ctxt)
  | 0, _, _, _, _ => none
  | fuel + 1, cmb, c, a, b =>
    match a, b with
    | .ty_bot, _ => none
    | _, .ty_bot => none
    | .ty_var _, _ => none
    | _, .ty_var _ => none
    | .ty_int _, _ =>
      if a = b then some (.ok a, c) else some (.error (.terr_sorts b a), c)
    | .ty_str, _ =>
      if a = b then some (.ok a, c) else some (.error (.terr_sorts b a), c)
    | .ty_box t_a m_a, .ty_box t_b m_b =>
      chain (mts rm fuel cmb c ⟨t_a, m_a⟩ ⟨t_b, m_b⟩) (fun mt c1 =>
        some (.ok (.ty_box mt.ty mt.mutbl), c1))
    | .ty_uniq t_a m_a, .ty_uniq t_b m_b =>
      chain (mts rm fuel cmb c ⟨t_a, m_a⟩ ⟨t_b, m_b⟩) (fun mt c1 =>
        some (.ok (.ty_uniq mt.ty mt.mutbl), c1))
    | .ty_vec t_a m_a, .ty_vec t_b m_b =>
      chain (mts rm fuel cmb c ⟨t_a, m_a⟩ ⟨t_b, m_b⟩) (fun mt c1 =>
        some (.ok (.ty_vec mt.ty mt.mutbl), c1))
    | .ty_rptr r_a t_a m_a, .ty_rptr r_b t_b m_b =>
      chain (contraregions rm fuel cmb c r_a r_b) (fun r c1 =>
        chain (mts rm fuel cmb c1 ⟨t_a, m_a⟩ ⟨t_b, m_b⟩) (fun mt c2 =>
          some (.ok (.ty_rptr r mt.ty mt.mutbl), c2)))
    | .ty_evec t_a m_a vs_a, .ty_evec t_b m_b vs_b =>
      chain (mts rm fuel cmb c ⟨t_a, m_a⟩ ⟨t_b, m_b⟩) (fun mt c1 =>
        chain (vstores rm fuel cmb c1 .terr_vec vs_a vs_b) (fun vs c2 =>
          some (.ok (.ty_evec mt.ty mt.mutbl vs), c2)))
    | .ty_estr vs_a, .ty_estr vs_b =>
      chain (vstores rm fuel cmb c .terr_str vs_a vs_b) (fun vs c1 =>
        some (.ok (.ty_estr vs), c1))
    | _, _ => some (.error (.terr_sorts b a), c)

/-- The `mts` methods: `sub.mts` is invariant under `mut` and covariant
otherwise, `lub.mts` falls back to `const`, `glb.mts` follows the table. -/
def mts (rm : RM) : Nat → Cmb → Ctxt → Mt → Mt → Option (cres Mt × Ctxt)
  | 0, _, _, _, _ => none
  | fuel + 1, cmb, c, a, b =>
    match cmb with
    | .sub =>
      if a.mutbl ≠ b.mutbl ∧ b.mutbl ≠ .m_const then some (.error .terr_mutability, c)
      else
        match b.mutbl with
        | .m_mutbl => chain (eq_tys rm fuel c a.ty b.ty) (fun _ c1 => some (.ok a, c1))
        | .m_imm =>
          chain (tysC rm fuel .sub c a.ty b.ty) (fun _ c1 => some (.ok a, c1))
        | .m_const =>
          chain (tysC rm fuel .sub c a.ty b.ty) (fun _ c1 => some (.ok a, c1))
    | .lub =>
      let m := if a.mutbl = b.mutbl then a.mutbl else .m_const
      match m with
      | .m_imm =>
        chain (tysC rm fuel .lub c a.ty b.ty) (fun t c1 => some (.ok ⟨t, m⟩, c1))
      | .m_const =>
        chain (tysC rm fuel .lub c a.ty b.ty) (fun t c1 => some (.ok ⟨t, m⟩, c1))
      | .m_mutbl =>
        match tryF (fun c1 =>
            chain (eq_tys rm fuel c1 a.ty b.ty) (fun _ c2 =>
              some (.ok (⟨a.ty, m⟩ : Mt), c2))) c with
        | none => none
        | some (.ok mt, c1) => some (.ok mt, c1)
        | some (.error _, c1) =>
          chain (tysC rm fuel .lub c1 a.ty b.ty) (fun t c2 =>
            some (.ok ⟨t, .m_const⟩, c2))
    | .glb =>
      match a.mutbl, b.mutbl with
      | .m_mutbl, .m_const =>
        chain (tysC rm fuel .sub c a.ty b.ty) (fun _ c1 => some (.ok ⟨a.ty, .m_mutbl⟩, c1))
      | .m_const, .m_mutbl =>
        chain (tysC rm fuel .sub c b.ty a.ty) (fun _ c1 => some (.ok ⟨b.ty, .m_mutbl⟩, c1))
      | .m_mutbl, .m_mutbl =>
        chain (eq_tys rm fuel c a.ty b.ty) (fun _ c1 => some (.ok ⟨a.ty, .m_mutbl⟩, c1))
      | .m_imm, .m_const =>
        chain (tysC rm fuel .glb c a.ty b.ty) (fun t c1 => some (.ok ⟨t, .m_imm⟩, c1))
      | .m_const, .m_imm =>
        chain (tysC rm fuel .glb c a.ty b.ty) (fun t c1 => some (.ok ⟨t, .m_imm⟩, c1))
      | .m_imm, .m_imm =>
        chain (tysC rm fuel .glb c a.ty b.ty) (fun t c1 => some (.ok ⟨t, .m_imm⟩, c1))
      | .m_const, .m_const =>
        chain (tysC rm fuel .glb c a.ty b.ty) (fun t c1 => some (.ok ⟨t, .m_const⟩, c1))
      | .m_mutbl, .m_imm => some (.error .terr_mutability, c)
      | .m_imm, .m_mutbl => some (.error .terr_mutability, c)

/-- The shared `super_vstores`. -/
def vstores (rm : RM) : Nat → Cmb → Ctxt → VKind → Vstore → Vstore → Option (cres Vstore × Ctxt)
  | 0, _, _, _, _, _ => none
  | fuel + 1, cmb, c, vk, a, b =>
    match a, b with
    | .vstore_slice a_r, .vstore_slice b_r =>
      chain (contraregions rm fuel cmb c a_r b_r) (fun r c1 =>
        some (.ok (.vstore_slice r), c1))
    | _, _ =>
      if a = b then some (.ok a, c)
      else some (.error (.terr_vstores_differ vk b a), c)

/-- The `contraregions` methods: `sub` swaps, `lub` defers to `glb` and
vice versa. -/
def contraregions (rm : RM) : Nat → Cmb → Ctxt → Region → Region → Option (cres Region × Ctxt)
  | 0, _, _, _, _ => none
  | fuel + 1, cmb, c, a, b =>
    match cmb with
    | .sub => regionsC rm fuel .sub c b a
    | .lub => regionsC rm fuel .glb c a b
    | .glb => regionsC rm fuel .lub c a b

/-- The `regions` methods of the three combiners. -/
def regionsC (rm : RM) : Nat → Cmb → Ctxt → Region → Region → Option (cres Region × Ctxt)
  | 0, _, _, _, _ => none
  | fuel + 1, cmb, c, a, b =>
    let rops := mkReOps (fun k c1 x y => regionsC rm fuel k c1 x y)
    match cmb with
    | .sub =>
      match a, b with
      | .re_var a_id, .re_var b_id =>
        chain (vars rops c a_id b_id) (fun _ c1 => some (.ok a, c1))
      | .re_var a_id, _ =>
        chain (vart rops c a_id b) (fun _ c1 => some (.ok a, c1))
      | _, .re_var b_id =>
        chain (tvar rops c a b_id) (fun _ c1 => some (.ok a, c1))
      | _, _ =>
        chain (regionsC rm fuel .lub c a b) (fun r c1 =>
          if r = b then some (.ok r, c1)
          else some (.error (.terr_regions_differ b a), c1))
    | .lub =>
      match a, b with
      | .re_static, _ => some (.ok .re_static, c)
      | _, .re_static => some (.ok .re_static, c)
      | .re_var _, _ => lattice_rvars rm fuel .lub c a b
      | _, .re_var _ => lattice_rvars rm fuel .lub c a b
      | .re_free f_id n, .re_scope s_id =>
        match rm f_id s_id with
        | some r_id =>
          if r_id = f_id then some (.ok (.re_free f_id n), c) else some (.ok .re_static, c)
        | none => some (.ok .re_static, c)
      | .re_scope s_id, .re_free f_id n =>
        match rm f_id s_id with
        | some r_id =>
          if r_id = f_id then some (.ok (.re_free f_id n), c) else some (.ok .re_static, c)
        | none => some (.ok .re_static, c)
      | .re_scope a_id, .re_scope b_id =>
        match rm a_id b_id with
        | some r_id => some (.ok (.re_scope r_id), c)
        | none => some (.ok .re_static, c)
      | _, _ => if a = b then some (.ok a, c) else some (.ok .re_static, c)
    | .glb =>
      match a, b with
      | .re_static, _ => some (.ok b, c)
      | _, .re_static => some (.ok a, c)
      | .re_var _, _ => lattice_rvars rm fuel .glb c a b
      | _, .re_var _ => lattice_rvars rm fuel .glb c a b
      | .re_free f_id _, .re_scope s_id =>
        match rm f_id s_id with
        | some r_id =>
          if r_id = f_id then some (.ok (.re_scope s_id), c)
          else some (.error (.terr_regions_differ b a), c)
        | none => some (.error (.terr_regions_differ b a), c)
      | .re_scope s_id, .re_free f_id _ =>
        match rm f_id s_id with
        | some r_id =>
          if r_id = f_id then some (.ok (.re_scope s_id), c)
          else some (.error (.terr_regions_differ b a), c)
        | none => some (.error (.terr_regions_differ b a), c)
      | .re_scope a_id, .re_scope b_id =>
        match rm a_id b_id with
        | some r_id =>
          if r_id = a_id then some (.ok b, c)
          else if r_id = b_id then some (.ok a, c)
          else some (.error (.terr_regions_differ b a), c)
        | none => some (.error (.terr_regions_differ b a), c)
      | _, _ =>
        if a = b then some (.ok a, c)
        else some (.error (.terr_regions_differ b a), c)

/-- The `lattice_rvars` helper: both-variable and one-variable region cases;
the `bug` abort on two ground regions is modelled by `none`. -/
def lattice_rvars (rm : RM) : Nat → Cmb → Ctxt → Region → Region → Option (cres Region × Ctxt)
  | 0, _, _, _, _ => none
  | fuel + 1, cmb, c, a, b =>
    let rops := mkReOps (fun k c1 x y => regionsC rm fuel k c1 x y)
    match a, b with
    | .re_var a_id, .re_var b_id =>
      lattice_vars rops (latticeBnd cmb) c a a_id b_id
        (fun c1 x y => regionsC rm fuel cmb c1 x y)
    | .re_var v_id, r =>
      lattice_var_t rops (latticeBnd cmb) (latticeWith cmb) c v_id r
        (fun c1 x y => regionsC rm fuel cmb c1 x y)
    | r, .re_var v_id =>
      lattice_var_t rops (latticeBnd cmb) (latticeWith cmb) c v_id r
        (fun c1 x y => regionsC rm fuel cmb c1 x y)
    | _, _ => none

/-- The `sub_tys` method of `unify_methods`. -/
def sub_tys (rm : RM) : Nat → Ctxt → Ty → Ty → Option (ures × Ctxt)
  | 0, _, _, _ => none
  | fuel + 1, c, a, b => chain (tysC rm fuel .sub c a b) (fun _ c1 => some (.ok (), c1))

/-- The `eq_tys` method: `a <: b` then `b <: a`. -/
def eq_tys (rm : RM) : Nat → Ctxt → Ty → Ty → Option (ures × Ctxt)
  | 0, _, _, _ => none
  | fuel + 1, c, a, b => chain (sub_tys rm fuel c a b) (fun _ c1 => sub_tys rm fuel c1 b a)

end

/-- The `sub_regions` method of `unify_methods`. -/
def sub_regions (rm : RM) (fuel : Nat) (c : Ctxt) (a b : Region) : Option (ures × Ctxt) :=
  chain (regionsC rm fuel .sub c a b) (fun _ c1 => some (.ok (), c1))

/-- The public entry `mk_subty`: a top-level commit around `sub.tys`. -/
def mk_subty (rm : RM) (fuel : Nat) (c : Ctxt) (a b : Ty) : Option (ures × Ctxt) :=
  commit (fun c1 => sub_tys rm fuel c1 a b) c

/-- The public entry `mk_eqty`: a top-level commit around `eq_tys`. -/
def mk_eqty (rm : RM) (fuel : Nat) (c : Ctxt) (a b : Ty) : Option (ures × Ctxt) :=
  commit (fun c1 => eq_tys rm fuel c1 a b) c

/-- The public entry `mk_subr`: a top-level commit around `sub.regions`. -/
def mk_subr (rm : RM) (fuel : Nat) (c : Ctxt) (a b : Region) : Option (ures × Ctxt) :=
  commit (fun c1 => sub_regions rm fuel c1 a b) c

/-- The `assignment` record: the expression being assigned and the region
scope to borrow to. -/
structure Assignment : Type where
  expr_id : Nat
  borrow_scope : Nat
deriving DecidableEq, Repr

/-- The `select` helper of `assign_tys`: first present bound wins. -/
def select (fst snd : Option Ty) : Option Ty :=
  match fst with
  | some t => some t
  | none =>
    match snd with
    | some t => some t
    | none => none

/-- The `is_borrowable` helper of `assign_tys_or_sub` (named without the
underscore prefix pattern for lexical reasons): fixed, uniq and box vstores
may be borrowed to a slice; a slice may not. -/
def borrowable (v : Vstore) : Bool :=
  match v with
  | .vstore_fixed _ => true
  | .vstore_uniq => true
  | .vstore_box => true
  | .vstore_slice _ => false

/-- The `crosspollinate` method: require `a <: nr_b`, require the enclosing
scope's region to be a contraregion of `r_b`, and on success record the
borrow in the `borrowings` table. -/
def crosspollinate (rm : RM) (fuel : Nat) (c : Ctxt) (anmnt : Assignment)
    (a nr_b : Ty) (r_b : Region) : Option (ures × Ctxt) :=
  chain (sub_tys rm fuel c a nr_b) (fun _ c1 =>
    let r_a := Region.re_scope anmnt.borrow_scope
    chain (contraregions rm fuel .sub c1 r_a r_b) (fun _ c2 =>
      some (.ok (),
        { c2 with borrowings := (anmnt.expr_id, anmnt.borrow_scope) :: c2.borrowings })))

/-- The `assign_tys_or_sub` method: if both selected bounds are present and
match a borrowing pattern, cross-pollinate with the owning constructor of the
`a` side over the pointee of the `b` side; otherwise plain `a <: b`. -/
def assign_tys_or_sub (rm : RM) (fuel : Nat) (c : Ctxt) (anmnt : Assignment)
    (a b : Ty) (a_bnd b_bnd : Option Ty) : Option (ures × Ctxt) :=
  match a_bnd, b_bnd with
  | some ab, some bb =>
    match ab, bb with
    | .ty_box _ _, .ty_rptr r_b t_b m_b =>
      crosspollinate rm fuel c anmnt a (.ty_box t_b m_b) r_b
    | .ty_uniq _ _, .ty_rptr r_b t_b m_b =>
      crosspollinate rm fuel c anmnt a (.ty_uniq t_b m_b) r_b
    | .ty_estr vs_a, .ty_estr (.vstore_slice r_b) =>
      if borrowable vs_a then crosspollinate rm fuel c anmnt a (.ty_estr vs_a) r_b
      else sub_tys rm fuel c a b
    | .ty_str, .ty_estr (.vstore_slice r_b) =>
      crosspollinate rm fuel c anmnt a .ty_str r_b
    | .ty_evec _ _ vs_a, .ty_evec t_b m_b (.vstore_slice r_b) =>
      if borrowable vs_a then crosspollinate rm fuel c anmnt a (.ty_evec t_b m_b vs_a) r_b
      else sub_tys rm fuel c a b
    | .ty_vec _ _, .ty_evec t_b m_b (.vstore_slice r_b) =>
      crosspollinate rm fuel c anmnt a (.ty_vec t_b m_b) r_b
    | _, _ => sub_tys rm fuel c a b
  | _, _ => sub_tys rm fuel c a b

/-- The `assign_tys` method: bot succeeds; variable sides select a biased
bound (upper first from `a`, lower first from `b`); ground sides stand for
themselves. -/
def assign_tys (rm : RM) (fuel : Nat) (c : Ctxt) (anmnt : Assignment)
    (a b : Ty) : Option (ures × Ctxt) :=
  match a, b with
  | .ty_bot, _ => some (.ok (), c)
  | .ty_var a_id, .ty_var b_id =>
    match get c.vb a_id with
    | none => none
    | some ((_, a_bounds), vb1) =>
      match get vb1 b_id with
      | none => none
      | some ((_, b_bounds), vb2) =>
        assign_tys_or_sub rm fuel { c with vb := vb2 } anmnt a b
          (select a_bounds.ub a_bounds.lb) (select b_bounds.lb b_bounds.ub)
  | .ty_var a_id, _ =>
    match get c.vb a_id with
    | none => none
    | some ((_, a_bounds), vb1) =>
      assign_tys_or_sub rm fuel { c with vb := vb1 } anmnt a b
        (select a_bounds.ub a_bounds.lb) (some b)
  | _, .ty_var b_id =>
    match get c.vb b_id with
    | none => none
    | some ((_, b_bounds), vb1) =>
      assign_tys_or_sub rm fuel { c with vb := vb1 } anmnt a b
        (some a) (select b_bounds.lb b_bounds.ub)
  | _, _ => assign_tys_or_sub rm fuel c anmnt a b (some a) (some b)

/-- The public entry `mk_assignty`: a top-level commit around `assign_tys`. -/
def mk_assignty (rm : RM) (fuel : Nat) (c : Ctxt) (anmnt : Assignment)
    (a b : Ty) : Option (ures × Ctxt) :=
  commit (fun c1 => assign_tys rm fuel c1 anmnt a b) c

/-- Modelled from the spec: the external predicate on region shapes used by
`resolve_region` dispatch (a region inference variable at the root). -/
def region_is_var (r : Region) : Bool :=
  match r with
  | .re_var _ => true
  | _ => false

/-- Modelled from the spec: whether a vstore carries a region variable. -/
def vstore_is_var (vs : Vstore) : Bool :=
  match vs with
  | .vstore_slice r => region_is_var r
  | _ => false

/-- Modelled from the spec: the external predicate `ty::type_needs_infer`,
true when the type contains a type or region inference variable. -/
def type_needs_infer : Ty → Bool
  | .ty_bot => false
  | .ty_int _ => false
  | .ty_str => false
  | .ty_box t _ => type_needs_infer t
  | .ty_uniq t _ => type_needs_infer t
  | .ty_vec t _ => type_needs_infer t
  | .ty_rptr r t _ => region_is_var r || type_needs_infer t
  | .ty_evec t _ vs => type_needs_infer t || vstore_is_var vs
  | .ty_estr vs => vstore_is_var vs
  | .ty_var _ => true

/-- Modelled from the spec: the external predicate `ty::type_has_regions`. -/
def type_has_regions : Ty → Bool
  | .ty_bot => false
  | .ty_int _ => false
  | .ty_str => false
  | .ty_box t _ => type_has_regions t
  | .ty_uniq t _ => type_has_regions t
  | .ty_vec t _ => type_has_regions t
  | .ty_rptr _ _ _ => true
  | .ty_evec t _ vs =>
    type_has_regions t ||
      (match vs with
       | .vstore_slice _ => true
       | _ => false)
  | .ty_estr vs =>
    match vs with
    | .vstore_slice _ => true
    | _ => false
  | .ty_var _ => false

/-- Modelled from the spec: the external predicate `ty::type_is_bot`. -/
def type_is_bot (t : Ty) : Bool :=
  match t with
  | .ty_bot => true
  | _ => false

/-- The mutable part of a `resolve_state`: the pending error and the two DFS
stacks (most recently pushed id at the head). -/
structure RState : Type where
  err : Option FixupErr
  r_seen : List Nat
  v_seen : List Nat
deriving DecidableEq, Repr

mutual

/-- The `resolve1` method of `resolve_state`: leave types without inference
material alone, resolve variables, and otherwise fold one layer.  The
external `ty::fold_regions_and_ty` is modelled from the spec as the
structural one-layer map over component regions and types. -/
def resolve1 (deep force : Bool) : Nat → Ctxt → RState → Ty → Option ((Ty × RState) × Ctxt)
  | 0, _, _, _ => none
  | fuel + 1, c, rs, t =>
    if ¬ type_needs_infer t then some ((t, rs), c)
    else
      match t with
      | .ty_var vid => resolve_ty_var deep force fuel c rs vid
      | _ =>
        if ¬ type_has_regions t ∧ ¬ deep then some ((t, rs), c)
        else
          match t with
          | .ty_box t1 m =>
            match resolve_if_deep deep force fuel c rs t1 with
            | none => none
            | some ((t2, rs1), c1) => some ((.ty_box t2 m, rs1), c1)
          | .ty_uniq t1 m =>
            match resolve_if_deep deep force fuel c rs t1 with
            | none => none
            | some ((t2, rs1), c1) => some ((.ty_uniq t2 m, rs1), c1)
          | .ty_vec t1 m =>
            match resolve_if_deep deep force fuel c rs t1 with
            | none => none
            | some ((t2, rs1), c1) => some ((.ty_vec t2 m, rs1), c1)
          | .ty_rptr r t1 m =>
            match resolve_region deep force fuel c rs r with
            | none => none
            | some ((r1, rs1), c1) =>
              match resolve_if_deep deep force fuel c1 rs1 t1 with
              | none => none
              | some ((t2, rs2), c2) => some ((.ty_rptr r1 t2 m, rs2), c2)
          | .ty_evec t1 m vs =>
            match resolve_vstore deep force fuel c rs vs with
            | none => none
            | some ((vs1, rs1), c1) =>
              match resolve_if_deep deep force fuel c1 rs1 t1 with
              | none => none
              | some ((t2, rs2), c2) => some ((.ty_evec t2 m vs1, rs2), c2)
          | .ty_estr vs =>
            match resolve_vstore deep force fuel c rs vs with
            | none => none
            | some ((vs1, rs1), c1) => some ((.ty_estr vs1, rs1), c1)
          | _ => some ((t, rs), c)

/-- The `resolve_if_deep` method. -/
def resolve_if_deep (deep force : Bool) : Nat → Ctxt → RState → Ty → Option ((Ty × RState) × Ctxt)
  | 0, _, _, _ => none
  | fuel + 1, c, rs, t =>
    if ¬ deep then some ((t, rs), c) else resolve1 deep force fuel c rs t

/-- Region positions inside a vstore, folded with `resolve_region`. -/
def resolve_vstore (deep force : Bool) : Nat → Ctxt → RState → Vstore →
    Option ((Vstore × RState) × Ctxt)
  | 0, _, _, _ => none
  | fuel + 1, c, rs, vs =>
    match vs with
    | .vstore_slice r =>
      match resolve_region deep force fuel c rs r with
      | none => none
      | some ((r1, rs1), c1) => some ((.vstore_slice r1, rs1), c1)
    | _ => some ((vs, rs), c)

/-- The `resolve_region` method. -/
def resolve_region (deep force : Bool) : Nat → Ctxt → RState → Region →
    Option ((Region × RState) × Ctxt)
  | 0, _, _, _ => none
  | fuel + 1, c, rs, orig =>
    match orig with
    | .re_var rid => resolve_region_var deep force fuel c rs rid
    | _ => some ((orig, rs), c)

/-- The `resolve_region_var` method: cycle check, then the lower bound if
present, else the upper, else the variable itself (an error under `force`). -/
def resolve_region_var (deep force : Bool) : Nat → Ctxt → RState → Nat →
    Option ((Region × RState) × Ctxt)
  | 0, _, _, _ => none
  | fuel + 1, c, rs, rid =>
    if rid ∈ rs.r_seen then
      some ((.re_var rid, { rs with err := some (.cyclic_region rid) }), c)
    else
      let rs1 := { rs with r_seen := rid :: rs.r_seen }
      match get c.rb rid with
      | none => none
      | some ((_, bounds), rb1) =>
        let c1 := { c with rb := rb1 }
        let inner : Option ((Region × RState) × Ctxt) :=
          match bounds.lb, bounds.ub with
          | some t, _ => resolve_region deep force fuel c1 rs1 t
          | none, some t => resolve_region deep force fuel c1 rs1 t
          | none, none =>
            some ((.re_var rid,
              { rs1 with err := if force then some (.unresolved_region rid) else rs1.err }), c1)
        match inner with
        | none => none
        | some ((r1, rs2), c2) => some ((r1, { rs2 with r_seen := rs2.r_seen.tail }), c2)

/-- The `resolve_ty_var` method: cycle check, then the lower bound if present
and not bot, else the upper bound, else the lower bound (the bot case), else
the variable itself (an `unresolved_ty` error under `force`). -/
def resolve_ty_var (deep force : Bool) : Nat → Ctxt → RState → Nat →
    Option ((Ty × RState) × Ctxt)
  | 0, _, _, _ => none
  | fuel + 1, c, rs, vid =>
    if vid ∈ rs.v_seen then
      some ((.ty_var vid, { rs with err := some (.cyclic_ty vid) }), c)
    else
      let rs1 := { rs with v_seen := vid :: rs.v_seen }
      match get c.vb vid with
      | none => none
      | some ((_, bounds), vb1) =>
        let c1 := { c with vb := vb1 }
        let inner : Option ((Ty × RState) × Ctxt) :=
          match bounds.lb, bounds.ub with
          | some t, _ =>
            if ¬ type_is_bot t then resolve1 deep force fuel c1 rs1 t
            else
              match bounds.ub with
              | some u => resolve1 deep force fuel c1 rs1 u
              | none => resolve1 deep force fuel c1 rs1 t
          | none, some u => resolve1 deep force fuel c1 rs1 u
          | none, none =>
            some ((.ty_var vid,
              { rs1 with err := if force then some (.unresolved_ty vid) else rs1.err }), c1)
        match inner with
        | none => none
        | some ((t1, rs2), c2) => some ((t1, { rs2 with v_seen := rs2.v_seen.tail }), c2)

end

/-- The `resolve` entry of `resolve_state`: run `resolve1` with empty DFS
stacks and report the recorded error, if any. -/
def resolve (deep force : Bool) (fuel : Nat) (c : Ctxt) (t : Ty) :
    Option (Except FixupErr Ty × Ctxt) :=
  match resolve1 deep force fuel c ⟨none, [], []⟩ t with
  | none => none
  | some ((rty, rs), c1) =>
    match rs.err with
    | none => some (.ok rty, c1)
    | some e => some (.error e, c1)

/-- The public entry `resolve_shallow`. -/
def resolve_shallow (fuel : Nat) (c : Ctxt) (t : Ty) (force : Bool) :
    Option (Except FixupErr Ty × Ctxt) :=
  resolve false force fuel c t

/-- The public entry `resolve_deep`. -/
def resolve_deep (fuel : Nat) (c : Ctxt) (t : Ty) (force : Bool) :
    Option (Except FixupErr Ty × Ctxt) :=
  resolve true force fuel c t

/-! ### Observable union-find semantics

`RootsTo vb v r b` says that following the redirect chain from `v` in the
value map of `vb` ends at root `r` carrying bounds `b` (a missing entry is an
implicit empty root).  This is the observation `get` computes; the lemmas
below relate `getF` to it. -/

/-- The redirect chain from `v` reaches root `r` with bounds `b`. -/
inductive RootsTo {T : Type} (vb : VB T) : Nat → Nat → Bounds T → Prop
  | missing (v : Nat) (h : vb.vals.lookup v = none) : RootsTo vb v v ⟨none, none⟩
  | root (v : Nat) (b : Bounds T) (h : vb.vals.lookup v = some (.bounded b)) :
      RootsTo vb v v b
  | step (v w r : Nat) (b : Bounds T) (h : vb.vals.lookup v = some (.redirect w))
      (hw : RootsTo vb w r b) : RootsTo vb v r b

/-- `Tgt vb v w` says `w` is a redirect target reachable from `v` (so `w` is
strictly after `v` on `v`'s chain). -/
inductive Tgt {T : Type} (vb : VB T) : Nat → Nat → Prop
  | step (v w : Nat) (h : vb.vals.lookup v = some (.redirect w)) : Tgt vb v w
  | trans (v w u : Nat) (h : vb.vals.lookup v = some (.redirect w))
      (hw : Tgt vb w u) : Tgt vb v u

theorem lookup_insertV_self {T : Type} (k : Nat) (v : VarValue T)
    (vals : List (Nat × VarValue T)) : (insertV k v vals).lookup k = some v := by
  simp [insertV, List.lookup]

theorem lookup_insertV_ne {T : Type} (k k' : Nat) (v : VarValue T)
    (vals : List (Nat × VarValue T)) (h : k' ≠ k) :
    (insertV k v vals).lookup k' = vals.lookup k' := by
  have hb : (k' == k) = false := by simp [h]
  simp [insertV, List.lookup, hb]

/-- The chain observation is deterministic. -/
theorem RootsTo.det {T : Type} {vb : VB T} {v r1 r2 : Nat} {b1 b2 : Bounds T}
    (h1 : RootsTo vb v r1 b1) (h2 : RootsTo vb v r2 b2) : r1 = r2 ∧ b1 = b2 := by
  induction h1 generalizing r2 b2 with
  | missing v h =>
    cases h2
    · exact ⟨rfl, rfl⟩
    · rename_i h'; rw [h] at h'; cases h'
    · rename_i h' _; rw [h] at h'; cases h'
  | root v b h =>
    cases h2
    · rename_i h'; rw [h'] at h; cases h
    · rename_i h'; rw [h] at h'; cases h'; exact ⟨rfl, rfl⟩
    · rename_i h' _; rw [h] at h'; cases h'
  | step v w r b h hw ih =>
    cases h2
    · rename_i h'; rw [h'] at h; cases h
    · rename_i h'; rw [h] at h'; cases h'
    · rename_i w' h' hw'
      rw [h] at h'; cases h'
      exact ih hw'

/-- A chain's root observes itself. -/
theorem RootsTo.root_self {T : Type} {vb : VB T} {v r : Nat} {b : Bounds T}
    (h : RootsTo vb v r b) : RootsTo vb r r b := by
  induction h with
  | missing v h => exact .missing v h
  | root v b h => exact .root v b h
  | step v w r b h hw ih => exact ih

/-- Inserting an empty root for a previously missing key preserves every
observation. -/
theorem RootsTo.preserve_fresh {T : Type} {vb : VB T} {v : Nat}
    (hv : vb.vals.lookup v = none) {bindings1 : List (Nat × VarValue T)}
    {w r : Nat} {b : Bounds T} (h : RootsTo vb w r b) :
    RootsTo ⟨insertV v (.bounded ⟨none, none⟩) vb.vals, bindings1⟩ w r b := by
  induction h with
  | missing u h =>
    by_cases hu : u = v
    · subst hu
      rw [h] at hv
      have : (⟨insertV u (VarValue.bounded ⟨none, none⟩) vb.vals, bindings1⟩ : VB T).vals.lookup u
          = some (.bounded ⟨none, none⟩) := lookup_insertV_self u _ vb.vals
      exact .root u ⟨none, none⟩ this
    · exact .missing u (by rw [show (⟨insertV v (VarValue.bounded ⟨none, none⟩) vb.vals, bindings1⟩ : VB T).vals = insertV v (.bounded ⟨none, none⟩) vb.vals from rfl, lookup_insertV_ne v u _ vb.vals hu]; exact h)
  | root u b h =>
    have hu : u ≠ v := by intro e; subst e; rw [h] at hv; cases hv
    exact .root u b (by rw [show (⟨insertV v (VarValue.bounded ⟨none, none⟩) vb.vals, bindings1⟩ : VB T).vals = insertV v (.bounded ⟨none, none⟩) vb.vals from rfl, lookup_insertV_ne v u _ vb.vals hu]; exact h)
  | step u w' r b h hw ih =>
    have hu : u ≠ v := by intro e; subst e; rw [h] at hv; cases hv
    exact .step u w' r b (by rw [show (⟨insertV v (VarValue.bounded ⟨none, none⟩) vb.vals, bindings1⟩ : VB T).vals = insertV v (.bounded ⟨none, none⟩) vb.vals from rfl, lookup_insertV_ne v u _ vb.vals hu]; exact h) ih

/-- The entry at the root of a chain is either missing (with empty bounds) or
bounded with the observed bounds. -/
theorem RootsTo.root_lookup {T : Type} {vb : VB T} {v r : Nat} {b : Bounds T}
    (h : RootsTo vb v r b) :
    (vb.vals.lookup r = none ∧ b = ⟨none, none⟩) ∨ vb.vals.lookup r = some (.bounded b) := by
  induction h with
  | missing v h => exact .inl ⟨h, rfl⟩
  | root v b h => exact .inr h
  | step v w r b h hw ih => exact ih

/-- A non-root node on a chain holds a redirect. -/
theorem RootsTo.lookup_of_ne {T : Type} {vb : VB T} {v r : Nat} {b : Bounds T}
    (h : RootsTo vb v r b) (hne : v ≠ r) :
    ∃ w, vb.vals.lookup v = some (.redirect w) := by
  cases h with
  | missing v h => exact absurd rfl hne
  | root v b h => exact absurd rfl hne
  | step v w r b h hw => exact ⟨w, h⟩

/-- Rewriting a node that observes root `r0` into a direct `redirect r0`
preserves every observation (the path-compression step). -/
theorem RootsTo.preserve_compress {T : Type} {vb : VB T} {tgt r0 : Nat} {b0 : Bounds T}
    (htgt : RootsTo vb tgt r0 b0) (hne : tgt ≠ r0)
    {bindings1 : List (Nat × VarValue T)}
    {w r : Nat} {b : Bounds T} (h : RootsTo vb w r b) :
    RootsTo ⟨insertV tgt (.redirect r0) vb.vals, bindings1⟩ w r b := by
  obtain ⟨w0, hw0⟩ := htgt.lookup_of_ne hne
  have hroot : RootsTo ⟨insertV tgt (.redirect r0) vb.vals, bindings1⟩ r0 r0 b0 := by
    have hr0ne : r0 ≠ tgt := fun e => hne e.symm
    rcases htgt.root_lookup with ⟨hl, hb⟩ | hl
    · subst hb
      exact .missing r0 (by
        show (insertV tgt (VarValue.redirect r0) vb.vals).lookup r0 = none
        rw [lookup_insertV_ne tgt r0 _ vb.vals hr0ne]; exact hl)
    · exact .root r0 b0 (by
        show (insertV tgt (VarValue.redirect r0) vb.vals).lookup r0 = some (.bounded b0)
        rw [lookup_insertV_ne tgt r0 _ vb.vals hr0ne]; exact hl)
  induction h with
  | missing u h =>
    have hu : u ≠ tgt := fun e => by rw [e, hw0] at h; cases h
    exact .missing u (by
      show (insertV tgt (VarValue.redirect r0) vb.vals).lookup u = none
      rw [lookup_insertV_ne tgt u _ vb.vals hu]; exact h)
  | root u b h =>
    have hu : u ≠ tgt := fun e => by rw [e, hw0] at h; simp at h
    exact .root u b (by
      show (insertV tgt (VarValue.redirect r0) vb.vals).lookup u = some (.bounded b)
      rw [lookup_insertV_ne tgt u _ vb.vals hu]; exact h)
  | step u w' r b h hw ih =>
    by_cases hu : u = tgt
    · subst hu
      obtain ⟨hr, hb⟩ := RootsTo.det (RootsTo.step u w' r b h hw) htgt
      rw [hr, hb]
      exact .step u r0 r0 b0 (lookup_insertV_self u _ vb.vals) hroot
    · exact .step u w' r b (by
        show (insertV tgt (VarValue.redirect r0) vb.vals).lookup u = some (.redirect w')
        rw [lookup_insertV_ne tgt u _ vb.vals hu]; exact h) ih

/-- Full specification of `getF`: the returned root and bounds are the chain
observation; the journal is untouched; the root's entry is bounded afterwards;
every strict chain node other than the root points directly at the root
afterwards; and every variable's observation is preserved. -/
theorem getF_spec {T : Type} (vb : VB T) : ∀ (fuel v r : Nat) (b : Bounds T) (vb' : VB T),
    getF fuel vb v = some ((r, b), vb') →
    RootsTo vb v r b ∧
    vb'.bindings = vb.bindings ∧
    vb'.vals.lookup r = some (.bounded b) ∧
    (∀ w, Tgt vb v w → w ≠ r → vb'.vals.lookup w = some (.redirect r)) ∧
    (∀ w rr bb, RootsTo vb w rr bb → RootsTo vb' w rr bb) ∧
    (vb.vals.lookup v = none → vb' = ⟨insertV v (.bounded ⟨none, none⟩) vb.vals, vb.bindings⟩) := by
  intro fuel
  induction fuel with
  | zero => intro v r b vb' h; exact absurd h (by simp [getF])
  | succ fuel ih =>
    intro v r b vb' h
    rw [getF] at h
    cases hv : vb.vals.lookup v with
    | none =>
      rw [hv] at h
      dsimp only at h
      simp only [Option.some.injEq, Prod.mk.injEq] at h
      obtain ⟨⟨h1, h2⟩, h3⟩ := h
      subst h1; subst h2
      refine ⟨RootsTo.missing _ hv, ?_, ?_, ?_, ?_, ?_⟩
      · rw [← h3]
      · rw [← h3]; exact lookup_insertV_self _ _ vb.vals
      · intro w hw hwr
        cases hw
        · rename_i h'
          rw [hv] at h'; cases h'
        · rename_i w'' h' hw'
          rw [hv] at h'; cases h'
      · intro w rr bb hr
        rw [← h3]
        exact RootsTo.preserve_fresh hv hr
      · intro hx; rw [← h3]
    | some val =>
      cases val with
      | bounded bnds =>
        rw [hv] at h
        dsimp only at h
        simp only [Option.some.injEq, Prod.mk.injEq] at h
        obtain ⟨⟨h1, h2⟩, h3⟩ := h
        subst h1; subst h2; subst h3
        refine ⟨RootsTo.root _ _ hv, rfl, hv, ?_, fun w rr bb hr => hr, ?_⟩
        · intro w hw hwr
          cases hw
          · rename_i h'
            rw [hv] at h'; cases h'
          · rename_i w'' h' hw'
            rw [hv] at h'; cases h'
        · intro hnone; exact Option.noConfusion hnone
      | redirect tgt =>
        rw [hv] at h
        dsimp only at h
        cases hg : getF fuel vb tgt with
        | none => rw [hg] at h; cases h
        | some res =>
          obtain ⟨⟨root, bnds⟩, vb1⟩ := res
          rw [hg] at h
          dsimp only at h
          obtain ⟨ih1, ih2, ih3, ih4, ih5, _⟩ := ih tgt root bnds vb1 hg
          simp only [Option.some.injEq, Prod.mk.injEq] at h
          obtain ⟨⟨h1, h2⟩, h3⟩ := h
          subst h1; subst h2
          have hsound := RootsTo.step v tgt _ _ hv ih1
          by_cases hrt : root = tgt
          · -- no compression write
            have hvb' : vb' = vb1 := by rw [← h3]; simp [hrt]
            subst hvb'
            refine ⟨hsound, ih2, ih3, ?_, ih5, ?_⟩
            · intro w hw hwr
              cases hw
              · rename_i h'
                rw [hv] at h'; cases h'
                exact absurd hrt.symm hwr
              · rename_i w'' h' hw'
                rw [hv] at h'; cases h'
                exact ih4 w hw' hwr
            · intro hnone; exact Option.noConfusion hnone
          · -- compression rewrites tgt to point directly at the root
            have hvb' : vb' = { vb1 with vals := insertV tgt (.redirect root) vb1.vals } := by
              rw [← h3]; simp [hrt]
            subst hvb'
            have htgt1 : RootsTo vb1 tgt root bnds := ih5 tgt root bnds ih1
            have hner : tgt ≠ root := fun e => hrt e.symm
            refine ⟨hsound, ih2, ?_, ?_, ?_, ?_⟩
            · show (insertV tgt (VarValue.redirect root) vb1.vals).lookup root
                = some (.bounded bnds)
              rw [lookup_insertV_ne tgt root _ vb1.vals (fun e => hrt e)]
              exact ih3
            · intro w hw hwr
              by_cases hwt : w = tgt
              · subst hwt
                exact lookup_insertV_self w _ vb1.vals
              · cases hw
                · rename_i h'
                  rw [hv] at h'; cases h'
                  exact absurd rfl hwt
                · rename_i w'' h' hw'
                  rw [hv] at h'; cases h'
                  show (insertV tgt (VarValue.redirect root) vb1.vals).lookup w
                    = some (.redirect root)
                  rw [lookup_insertV_ne tgt w _ vb1.vals hwt]
                  exact ih4 w hw' hwr
            · intro w rr bb hr
              exact RootsTo.preserve_compress htgt1 hner (ih5 w rr bb hr)
            · intro hnone; exact Option.noConfusion hnone

/-! ### Ground (inference-variable-free) executions

On ground inputs the combiners neither read nor write the variable stores, so
their results are pure functions of the inputs.  The `_g` functions below are
those pure values; the agreement lemmas state that the fuelled stateful
embedding computes them without touching the context. -/

/-- Structural size of a type counting type constructors only, used to bound
combiner recursion depth on ground inputs. -/
def tsize : Ty → Nat
  | .ty_bot => 1
  | .ty_int _ => 1
  | .ty_str => 1
  | .ty_box t _ => 1 + tsize t
  | .ty_uniq t _ => 1 + tsize t
  | .ty_vec t _ => 1 + tsize t
  | .ty_rptr _ t _ => 1 + tsize t
  | .ty_evec t _ _ => 1 + tsize t
  | .ty_estr _ => 1
  | .ty_var _ => 1

/-- The pure value of `lub.regions` on ground regions (the variable arms are
never reached on ground inputs). -/
def lub_regions_g (rm : RM) (a b : Region) : Region :=
  match a, b with
  | .re_static, _ => .re_static
  | _, .re_static => .re_static
  | .re_free f_id n, .re_scope s_id =>
    match rm f_id s_id with
    | some r_id => if r_id = f_id then .re_free f_id n else .re_static
    | none => .re_static
  | .re_scope s_id, .re_free f_id n =>
    match rm f_id s_id with
    | some r_id => if r_id = f_id then .re_free f_id n else .re_static
    | none => .re_static
  | .re_scope a_id, .re_scope b_id =>
    match rm a_id b_id with
    | some r_id => .re_scope r_id
    | none => .re_static
  | _, _ => if a = b then a else .re_static

/-- The pure value of `glb.regions` on ground regions. -/
def glb_regions_g (rm : RM) (a b : Region) : cres Region :=
  match a, b with
  | .re_static, _ => .ok b
  | _, .re_static => .ok a
  | .re_free f_id _, .re_scope s_id =>
    match rm f_id s_id with
    | some r_id => if r_id = f_id then .ok (.re_scope s_id) else .error (.terr_regions_differ b a)
    | none => .error (.terr_regions_differ b a)
  | .re_scope s_id, .re_free f_id _ =>
    match rm f_id s_id with
    | some r_id => if r_id = f_id then .ok (.re_scope s_id) else .error (.terr_regions_differ b a)
    | none => .error (.terr_regions_differ b a)
  | .re_scope a_id, .re_scope b_id =>
    match rm a_id b_id with
    | some r_id =>
      if r_id = a_id then .ok b
      else if r_id = b_id then .ok a
      else .error (.terr_regions_differ b a)
    | none => .error (.terr_regions_differ b a)
  | _, _ => if a = b then .ok a else .error (.terr_regions_differ b a)

/-- The pure value of `sub.regions` on ground regions: the lub compared
against `b`. -/
def sub_regions_res (rm : RM) (a b : Region) : cres Region :=
  if lub_regions_g rm a b = b then .ok b else .error (.terr_regions_differ b a)

/-- The pure value of any combiner's `regions` on ground regions. -/
def regions_g (rm : RM) : Cmb → Region → Region → cres Region
  | .sub => sub_regions_res rm
  | .lub => fun a b => .ok (lub_regions_g rm a b)
  | .glb => glb_regions_g rm

theorem regionsC_lub_ground (rm : RM) (a b : Region)
    (ha : region_is_var a = false) (hb : region_is_var b = false)
    (c : Ctxt) (fuel : Nat) (hf : 1 ≤ fuel) :
    regionsC rm fuel .lub c a b = some (.ok (lub_regions_g rm a b), c) := by
  obtain ⟨f, rfl⟩ : ∃ f, fuel = f + 1 := ⟨fuel - 1, by omega⟩
  cases a <;> cases b <;> simp_all [regionsC, lub_regions_g, region_is_var]
  all_goals try (split <;> try simp_all)
  all_goals try (split <;> try simp_all)
  all_goals try (split <;> try simp_all)
  all_goals try simp_all

theorem regionsC_glb_ground (rm : RM) (a b : Region)
    (ha : region_is_var a = false) (hb : region_is_var b = false)
    (c : Ctxt) (fuel : Nat) (hf : 1 ≤ fuel) :
    regionsC rm fuel .glb c a b = some (glb_regions_g rm a b, c) := by
  obtain ⟨f, rfl⟩ : ∃ f, fuel = f + 1 := ⟨fuel - 1, by omega⟩
  cases a <;> cases b <;> simp_all [regionsC, glb_regions_g, region_is_var]
  all_goals try (split <;> try simp_all)
  all_goals try (split <;> try simp_all)
  all_goals try (split <;> try simp_all)
  all_goals try simp_all

theorem regionsC_sub_ground (rm : RM) (a b : Region)
    (ha : region_is_var a = false) (hb : region_is_var b = false)
    (c : Ctxt) (fuel : Nat) (hf : 2 ≤ fuel) :
    regionsC rm fuel .sub c a b = some (sub_regions_res rm a b, c) := by
  obtain ⟨f, rfl⟩ : ∃ f, fuel = f + 1 := ⟨fuel - 1, by omega⟩
  have hlub := regionsC_lub_ground rm a b ha hb c f (by omega)
  have hred : regionsC rm (f + 1) .sub c a b =
      chain (regionsC rm f .lub c a b) (fun r c1 =>
        if r = b then some (.ok r, c1)
        else some (.error (.terr_regions_differ b a), c1)) := by
    cases a <;> cases b <;> simp_all [regionsC, region_is_var]
  rw [hred, hlub]
  by_cases hc : lub_regions_g rm a b = b <;> simp [chain, hc, sub_regions_res]

theorem regionsC_ground (rm : RM) (cmb : Cmb) (a b : Region)
    (ha : region_is_var a = false) (hb : region_is_var b = false)
    (c : Ctxt) (fuel : Nat) (hf : 2 ≤ fuel) :
    regionsC rm fuel cmb c a b = some (regions_g rm cmb a b, c) := by
  cases cmb with
  | sub => exact regionsC_sub_ground rm a b ha hb c fuel hf
  | lub => exact regionsC_lub_ground rm a b ha hb c fuel (by omega)
  | glb => exact regionsC_glb_ground rm a b ha hb c fuel (by omega)

/-- The pure lub of ground regions is ground. -/
theorem lub_regions_g_ground (rm : RM) (a b : Region)
    (ha : region_is_var a = false) (hb : region_is_var b = false) :
    region_is_var (lub_regions_g rm a b) = false := by
  cases a <;> cases b <;> simp only [lub_regions_g]
  all_goals try (split <;> try split)
  all_goals simp_all [region_is_var]

/-- A successful pure regions combination of ground regions is ground. -/
theorem regions_g_ok_ground (rm : RM) (cmb : Cmb) (a b t : Region)
    (ha : region_is_var a = false) (hb : region_is_var b = false)
    (h : regions_g rm cmb a b = .ok t) : region_is_var t = false := by
  cases cmb with
  | sub =>
    simp only [regions_g, sub_regions_res] at h
    split at h
    · cases h; exact hb
    · cases h
  | lub =>
    simp only [regions_g] at h
    cases h
    exact lub_regions_g_ground rm a b ha hb
  | glb =>
    simp only [regions_g] at h
    cases a <;> cases b <;> simp_all [glb_regions_g, region_is_var]
    all_goals try (split at h <;> try simp_all [region_is_var])
    all_goals try (split at h <;> try simp_all [region_is_var])
    all_goals try (split at h <;> try simp_all [region_is_var])
    all_goals try (cases h <;> try simp_all [region_is_var])
    all_goals try simp_all [region_is_var]

/-- Rolling back to the current journal length is the identity. -/
theorem rollback_to_self {T : Type} (vb : VB T) :
    rollback_to vb vb.bindings.length = vb := by
  obtain ⟨vals, bs⟩ := vb
  cases bs with
  | nil => rfl
  | cons hd tl =>
    obtain ⟨vid, oldv⟩ := hd
    simp [rollback_to, rollbackL]

/-- `try` around a function that neither fails to terminate nor changes the
context returns its result on the unchanged context. -/
theorem tryF_pure {E A : Type} (f : Ctxt → Option (Except E A × Ctxt)) (c : Ctxt)
    (r : Except E A) (h : f c = some (r, c)) : tryF f c = some (r, c) := by
  cases r <;> simp [tryF, h, rollback_to_self]

/-- `commit` around a pure function on an empty-journal context. -/
theorem commit_pure {E A : Type} (f : Ctxt → Option (Except E A × Ctxt)) (c : Ctxt)
    (r : Except E A) (hvb : c.vb.bindings = []) (hrb : c.rb.bindings = [])
    (h : f c = some (r, c)) : commit f c = some (r, c) := by
  rw [commit]
  rw [if_pos (by simp [hvb, hrb])]
  rw [tryF_pure f c r h]
  simp [← hvb, ← hrb]

/-- The pure value of a combiner's `contraregions` on ground regions. -/
def contraregions_g (rm : RM) : Cmb → Region → Region → cres Region
  | .sub => fun a b => regions_g rm .sub b a
  | .lub => fun a b => regions_g rm .glb a b
  | .glb => fun a b => regions_g rm .lub a b

theorem contraregionsC_ground (rm : RM) (cmb : Cmb) (a b : Region)
    (ha : region_is_var a = false) (hb : region_is_var b = false)
    (c : Ctxt) (fuel : Nat) (hf : 3 ≤ fuel) :
    contraregions rm fuel cmb c a b = some (contraregions_g rm cmb a b, c) := by
  obtain ⟨f, rfl⟩ : ∃ f, fuel = f + 1 := ⟨fuel - 1, by omega⟩
  cases cmb with
  | sub =>
    show regionsC rm f .sub c b a = _
    rw [regionsC_ground rm .sub b a hb ha c f (by omega)]
    rfl
  | lub =>
    show regionsC rm f .glb c a b = _
    rw [regionsC_ground rm .glb a b ha hb c f (by omega)]
    rfl
  | glb =>
    show regionsC rm f .lub c a b = _
    rw [regionsC_ground rm .lub a b ha hb c f (by omega)]
    rfl

theorem contraregions_g_ok_ground (rm : RM) (cmb : Cmb) (a b t : Region)
    (ha : region_is_var a = false) (hb : region_is_var b = false)
    (h : contraregions_g rm cmb a b = .ok t) : region_is_var t = false := by
  cases cmb with
  | sub => exact regions_g_ok_ground rm .sub b a t hb ha h
  | lub => exact regions_g_ok_ground rm .glb a b t ha hb h
  | glb => exact regions_g_ok_ground rm .lub a b t ha hb h

/-- The pure value of the shared `super_vstores` on ground vstores. -/
def vstores_g (rm : RM) (cmb : Cmb) (vk : VKind) (a b : Vstore) : cres Vstore :=
  match a, b with
  | .vstore_slice a_r, .vstore_slice b_r =>
    match contraregions_g rm cmb a_r b_r with
    | .ok r => .ok (.vstore_slice r)
    | .error e => .error e
  | _, _ =>
    if a = b then .ok a
    else .error (.terr_vstores_differ vk b a)

theorem vstoresC_ground (rm : RM) (cmb : Cmb) (vk : VKind) (a b : Vstore)
    (ha : vstore_is_var a = false) (hb : vstore_is_var b = false)
    (c : Ctxt) (fuel : Nat) (hf : 4 ≤ fuel) :
    vstores rm fuel cmb c vk a b = some (vstores_g rm cmb vk a b, c) := by
  obtain ⟨f, rfl⟩ : ∃ f, fuel = f + 1 := ⟨fuel - 1, by omega⟩
  cases a with
  | vstore_slice a_r =>
    cases b with
    | vstore_slice b_r =>
      have ha' : region_is_var a_r = false := by simpa [vstore_is_var] using ha
      have hb' : region_is_var b_r = false := by simpa [vstore_is_var] using hb
      have hcr := contraregionsC_ground rm cmb a_r b_r ha' hb' c f (by omega)
      simp only [vstores, hcr]
      cases hres : contraregions_g rm cmb a_r b_r <;>
        simp [chain, hres, vstores_g]
    | vstore_fixed n => simp [vstores, vstores_g]
    | vstore_uniq => simp [vstores, vstores_g]
    | vstore_box => simp [vstores, vstores_g]
  | vstore_fixed n =>
    cases b <;> simp [vstores, vstores_g] <;> (try split <;> simp)
  | vstore_uniq =>
    cases b <;> simp [vstores, vstores_g] <;> (try split <;> simp)
  | vstore_box =>
    cases b <;> simp [vstores, vstores_g] <;> (try split <;> simp)

theorem vstores_g_ok_ground (rm : RM) (cmb : Cmb) (vk : VKind) (a b vs : Vstore)
    (ha : vstore_is_var a = false) (hb : vstore_is_var b = false)
    (h : vstores_g rm cmb vk a b = .ok vs) : vstore_is_var vs = false := by
  cases a <;> cases b <;> simp_all [vstores_g, vstore_is_var]
  all_goals try (split at h <;> try simp_all [vstore_is_var])
  all_goals try (cases h <;> try simp_all [vstore_is_var])
  all_goals try simp_all [vstore_is_var]
  all_goals rename_i hr _ hres
  all_goals exact contraregions_g_ok_ground rm cmb _ _ _ ha hb hres

mutual

/-- The pure value of a combiner's `tys` on ground types.  The variable arms,
unreachable on ground inputs, return a junk sorts error; the agreement lemma
below only speaks of variable-free inputs. -/
def tys_g (rm : RM) (cmb : Cmb) (a b : Ty) : cres Ty :=
  if a = b then .ok a
  else
    match cmb with
    | .sub =>
      match a, b with
      | .ty_bot, _ => .ok .ty_bot
      | .ty_var _, _ => .error (.terr_sorts b a)
      | _, .ty_var _ => .error (.terr_sorts b a)
      | _, .ty_bot => .error (.terr_sorts b a)
      | a1, b1 => super_tys_g rm .sub a1 b1
    | .lub =>
      match a, b with
      | .ty_bot, _ => .ok b
      | _, .ty_bot => .ok a
      | .ty_var _, _ => .error (.terr_sorts b a)
      | _, .ty_var _ => .error (.terr_sorts b a)
      | a1, b1 => super_tys_g rm .lub a1 b1
    | .glb =>
      match a, b with
      | .ty_bot, _ => .ok .ty_bot
      | _, .ty_bot => .ok .ty_bot
      | .ty_var _, _ => .error (.terr_sorts b a)
      | _, .ty_var _ => .error (.terr_sorts b a)
      | a1, b1 => super_tys_g rm .glb a1 b1
termination_by 8 * (tsize a + tsize b) + 6
decreasing_by all_goals ((try simp only [tsize]); omega)

/-- The pure value of `super_tys` on ground non-bot types. -/
def super_tys_g (rm : RM) (cmb : Cmb) (a b : Ty) : cres Ty :=
  match a, b with
  | .ty_bot, _ => .error (.terr_sorts b a)
  | _, .ty_bot => .error (.terr_sorts b a)
  | .ty_var _, _ => .error (.terr_sorts b a)
  | _, .ty_var _ => .error (.terr_sorts b a)
  | .ty_int _, _ => if a = b then .ok a else .error (.terr_sorts b a)
  | .ty_str, _ => if a = b then .ok a else .error (.terr_sorts b a)
  | .ty_box t_a m_a, .ty_box t_b m_b =>
    match mts_g rm cmb ⟨t_a, m_a⟩ ⟨t_b, m_b⟩ with
    | .ok mt => .ok (.ty_box mt.ty mt.mutbl)
    | .error e => .error e
  | .ty_uniq t_a m_a, .ty_uniq t_b m_b =>
    match mts_g rm cmb ⟨t_a, m_a⟩ ⟨t_b, m_b⟩ with
    | .ok mt => .ok (.ty_uniq mt.ty mt.mutbl)
    | .error e => .error e
  | .ty_vec t_a m_a, .ty_vec t_b m_b =>
    match mts_g rm cmb ⟨t_a, m_a⟩ ⟨t_b, m_b⟩ with
    | .ok mt => .ok (.ty_vec mt.ty mt.mutbl)
    | .error e => .error e
  | .ty_rptr r_a t_a m_a, .ty_rptr r_b t_b m_b =>
    match contraregions_g rm cmb r_a r_b with
    | .ok r =>
      match mts_g rm cmb ⟨t_a, m_a⟩ ⟨t_b, m_b⟩ with
      | .ok mt => .ok (.ty_rptr r mt.ty mt.mutbl)
      | .error e => .error e
    | .error e => .error e
  | .ty_evec t_a m_a vs_a, .ty_evec t_b m_b vs_b =>
    match mts_g rm cmb ⟨t_a, m_a⟩ ⟨t_b, m_b⟩ with
    | .ok mt =>
      match vstores_g rm cmb .terr_vec vs_a vs_b with
      | .ok vs => .ok (.ty_evec mt.ty mt.mutbl vs)
      | .error e => .error e
    | .error e => .error e
  | .ty_estr vs_a, .ty_estr vs_b =>
    match vstores_g rm cmb .terr_str vs_a vs_b with
    | .ok vs => .ok (.ty_estr vs)
    | .error e => .error e
  | _, _ => .error (.terr_sorts b a)
termination_by 8 * (tsize a + tsize b) + 5
decreasing_by all_goals ((try simp only [tsize]); omega)

/-- The pure value of `sub_tys` on ground types. -/
def sub_tys_g (rm : RM) (a b : Ty) : ures :=
  match tys_g rm .sub a b with
  | .ok _ => .ok ()
  | .error e => .error e
termination_by 8 * (tsize a + tsize b) + 7
decreasing_by all_goals ((try simp only [tsize]); omega)

/-- The pure value of `eq_tys` on ground types. -/
def eq_tys_g (rm : RM) (a b : Ty) : ures :=
  match sub_tys_g rm a b with
  | .ok _ => sub_tys_g rm b a
  | .error e => .error e
termination_by 8 * (tsize a + tsize b) + 8
decreasing_by all_goals ((try simp only [tsize]); omega)

/-- The pure value of a combiner's `mts` on ground types. -/
def mts_g (rm : RM) (cmb : Cmb) (a b : Mt) : cres Mt :=
  match cmb with
  | .sub =>
    if a.mutbl ≠ b.mutbl ∧ b.mutbl ≠ .m_const then .error .terr_mutability
    else
      match b.mutbl with
      | .m_mutbl =>
        match eq_tys_g rm a.ty b.ty with
        | .ok _ => .ok a
        | .error e => .error e
      | .m_imm =>
        match tys_g rm .sub a.ty b.ty with
        | .ok _ => .ok a
        | .error e => .error e
      | .m_const =>
        match tys_g rm .sub a.ty b.ty with
        | .ok _ => .ok a
        | .error e => .error e
  | .lub =>
    let m := if a.mutbl = b.mutbl then a.mutbl else .m_const
    match m with
    | .m_imm =>
      match tys_g rm .lub a.ty b.ty with
      | .ok t => .ok ⟨t, m⟩
      | .error e => .error e
    | .m_const =>
      match tys_g rm .lub a.ty b.ty with
      | .ok t => .ok ⟨t, m⟩
      | .error e => .error e
    | .m_mutbl =>
      match eq_tys_g rm a.ty b.ty with
      | .ok _ => .ok ⟨a.ty, m⟩
      | .error _ =>
        match tys_g rm .lub a.ty b.ty with
        | .ok t => .ok ⟨t, .m_const⟩
        | .error e => .error e
  | .glb =>
    match a.mutbl, b.mutbl with
    | .m_mutbl, .m_const =>
      match tys_g rm .sub a.ty b.ty with
      | .ok _ => .ok ⟨a.ty, .m_mutbl⟩
      | .error e => .error e
    | .m_const, .m_mutbl =>
      match tys_g rm .sub b.ty a.ty with
      | .ok _ => .ok ⟨b.ty, .m_mutbl⟩
      | .error e => .error e
    | .m_mutbl, .m_mutbl =>
      match eq_tys_g rm a.ty b.ty with
      | .ok _ => .ok ⟨a.ty, .m_mutbl⟩
      | .error e => .error e
    | .m_imm, .m_const =>
      match tys_g rm .glb a.ty b.ty with
      | .ok t => .ok ⟨t, .m_imm⟩
      | .error e => .error e
    | .m_const, .m_imm =>
      match tys_g rm .glb a.ty b.ty with
      | .ok t => .ok ⟨t, .m_imm⟩
      | .error e => .error e
    | .m_imm, .m_imm =>
      match tys_g rm .glb a.ty b.ty with
      | .ok t => .ok ⟨t, .m_imm⟩
      | .error e => .error e
    | .m_const, .m_const =>
      match tys_g rm .glb a.ty b.ty with
      | .ok t => .ok ⟨t, .m_const⟩
      | .error e => .error e
    | .m_mutbl, .m_imm => .error .terr_mutability
    | .m_imm, .m_mutbl => .error .terr_mutability
termination_by 8 * (tsize a.ty + tsize b.ty) + 9
decreasing_by all_goals ((try simp only [tsize]); omega)

end

set_option maxHeartbeats 3200000 in
/-- Agreement of the fuelled stateful combiners with their pure ground
values: on inference-variable-free inputs with enough fuel, each operation
returns its pure value and leaves the context untouched. -/
theorem combine_ground (rm : RM) : ∀ n : Nat,
    (∀ (a b : Ty), tsize a + tsize b ≤ n →
      type_needs_infer a = false → type_needs_infer b = false →
      a ≠ .ty_bot → b ≠ .ty_bot →
      ∀ (cmb : Cmb) (c : Ctxt) (fuel : Nat), 8 * (tsize a + tsize b) + 5 ≤ fuel →
        super_tys rm fuel cmb c a b = some (super_tys_g rm cmb a b, c)) ∧
    (∀ (a b : Ty), tsize a + tsize b ≤ n →
      type_needs_infer a = false → type_needs_infer b = false →
      ∀ (cmb : Cmb) (c : Ctxt) (fuel : Nat), 8 * (tsize a + tsize b) + 6 ≤ fuel →
        tysC rm fuel cmb c a b = some (tys_g rm cmb a b, c)) ∧
    (∀ (a b : Ty), tsize a + tsize b ≤ n →
      type_needs_infer a = false → type_needs_infer b = false →
      ∀ (c : Ctxt) (fuel : Nat), 8 * (tsize a + tsize b) + 7 ≤ fuel →
        sub_tys rm fuel c a b = some (sub_tys_g rm a b, c)) ∧
    (∀ (a b : Ty), tsize a + tsize b ≤ n →
      type_needs_infer a = false → type_needs_infer b = false →
      ∀ (c : Ctxt) (fuel : Nat), 8 * (tsize a + tsize b) + 8 ≤ fuel →
        eq_tys rm fuel c a b = some (eq_tys_g rm a b, c)) ∧
    (∀ (ma mb : Mt), tsize ma.ty + tsize mb.ty ≤ n →
      type_needs_infer ma.ty = false → type_needs_infer mb.ty = false →
      ∀ (cmb : Cmb) (c : Ctxt) (fuel : Nat), 8 * (tsize ma.ty + tsize mb.ty) + 9 ≤ fuel →
        mts rm fuel cmb c ma mb = some (mts_g rm cmb ma mb, c)) := by
  intro n
  induction n using Nat.strong_induction_on with
  | _ n ih =>
    have hsuper : ∀ (a b : Ty), tsize a + tsize b ≤ n →
        type_needs_infer a = false → type_needs_infer b = false →
        a ≠ .ty_bot → b ≠ .ty_bot →
        ∀ (cmb : Cmb) (c : Ctxt) (fuel : Nat), 8 * (tsize a + tsize b) + 5 ≤ fuel →
          super_tys rm fuel cmb c a b = some (super_tys_g rm cmb a b, c) := by
      intro a b hn ha hb hba hbb cmb c fuel hf
      obtain ⟨f, rfl⟩ : ∃ f, fuel = f + 1 := ⟨fuel - 1, by omega⟩
      cases a <;> cases b <;>
        first
        | (simp [type_needs_infer] at ha; done)
        | (simp [type_needs_infer] at hb; done)
        | (exact absurd rfl hba)
        | (exact absurd rfl hbb)
        | ((simp [super_tys, super_tys_g]) <;> (try (split <;> simp_all)) ; done)
        | (rename_i t1 m1 t2 m2
           simp only [tsize] at hn hf
           have h1 : type_needs_infer t1 = false := by
             simpa [type_needs_infer] using ha
           have h2 : type_needs_infer t2 = false := by
             simpa [type_needs_infer] using hb
           have hm := (ih (tsize t1 + tsize t2) (by omega)).2.2.2.2
             ⟨t1, m1⟩ ⟨t2, m2⟩ (by simp) h1 h2 cmb c f (by simp; omega)
           simp only [super_tys, super_tys_g]
           rw [hm]
           cases hres : mts_g rm cmb ⟨t1, m1⟩ ⟨t2, m2⟩ <;> simp [chain, hres]
           done)
        | (rename_i r1 t1 m1 r2 t2 m2
           simp only [tsize] at hn hf
           obtain ⟨hr1, h1⟩ : region_is_var r1 = false ∧ type_needs_infer t1 = false := by
             simpa [type_needs_infer] using ha
           obtain ⟨hr2, h2⟩ : region_is_var r2 = false ∧ type_needs_infer t2 = false := by
             simpa [type_needs_infer] using hb
           have hcr := contraregionsC_ground rm cmb r1 r2 hr1 hr2 c f (by omega)
           have hm := (ih (tsize t1 + tsize t2) (by omega)).2.2.2.2
             ⟨t1, m1⟩ ⟨t2, m2⟩ (by simp) h1 h2 cmb c f (by simp; omega)
           simp only [super_tys, super_tys_g]
           rw [hcr]
           cases hcres : contraregions_g rm cmb r1 r2 with
           | error e => simp [chain, hcres]
           | ok r0 =>
             simp only [chain, hcres]
             rw [hm]
             cases hres : mts_g rm cmb ⟨t1, m1⟩ ⟨t2, m2⟩ <;> simp [chain, hres]
           done)
        | (rename_i t1 m1 vs1 t2 m2 vs2
           simp only [tsize] at hn hf
           obtain ⟨h1, hv1⟩ : type_needs_infer t1 = false ∧ vstore_is_var vs1 = false := by
             simpa [type_needs_infer] using ha
           obtain ⟨h2, hv2⟩ : type_needs_infer t2 = false ∧ vstore_is_var vs2 = false := by
             simpa [type_needs_infer] using hb
           have hvs := vstoresC_ground rm cmb .terr_vec vs1 vs2 hv1 hv2 c f (by omega)
           have hm := (ih (tsize t1 + tsize t2) (by omega)).2.2.2.2
             ⟨t1, m1⟩ ⟨t2, m2⟩ (by simp) h1 h2 cmb c f (by simp; omega)
           simp only [super_tys, super_tys_g]
           rw [hm]
           cases hres : mts_g rm cmb ⟨t1, m1⟩ ⟨t2, m2⟩ with
           | error e => simp [chain, hres]
           | ok mt =>
             simp only [chain, hres]
             rw [hvs]
             cases hvres : vstores_g rm cmb .terr_vec vs1 vs2 <;> simp [chain, hvres]
           done)
        | (rename_i vs1 vs2
           obtain hv1 : vstore_is_var vs1 = false := by
             simpa [type_needs_infer] using ha
           obtain hv2 : vstore_is_var vs2 = false := by
             simpa [type_needs_infer] using hb
           simp only [tsize] at hf
           have hvs := vstoresC_ground rm cmb .terr_str vs1 vs2 hv1 hv2 c f (by omega)
           simp only [super_tys, super_tys_g]
           rw [hvs]
           cases hvres : vstores_g rm cmb .terr_str vs1 vs2 <;> simp [chain, hvres]
           done)
    have htys : ∀ (a b : Ty), tsize a + tsize b ≤ n →
        type_needs_infer a = false → type_needs_infer b = false →
        ∀ (cmb : Cmb) (c : Ctxt) (fuel : Nat), 8 * (tsize a + tsize b) + 6 ≤ fuel →
          tysC rm fuel cmb c a b = some (tys_g rm cmb a b, c) := by
      intro a b hn ha hb cmb c fuel hf
      obtain ⟨f, rfl⟩ : ∃ f, fuel = f + 1 := ⟨fuel - 1, by omega⟩
      by_cases hab : a = b
      · subst hab; simp [tysC, tys_g.eq_def]
      · cases cmb <;> cases a <;> cases b <;>
          first
          | (simp [type_needs_infer] at ha; done)
          | (simp [type_needs_infer] at hb; done)
          | ((simp [tysC, tys_g, hab]) <;>
             exact hsuper _ _ hn ha hb (by simp) (by simp) _ c f (by omega))
    have hsub : ∀ (a b : Ty), tsize a + tsize b ≤ n →
        type_needs_infer a = false → type_needs_infer b = false →
        ∀ (c : Ctxt) (fuel : Nat), 8 * (tsize a + tsize b) + 7 ≤ fuel →
          sub_tys rm fuel c a b = some (sub_tys_g rm a b, c) := by
      intro a b hn ha hb c fuel hf
      obtain ⟨f, rfl⟩ : ∃ f, fuel = f + 1 := ⟨fuel - 1, by omega⟩
      simp only [sub_tys]
      rw [htys a b hn ha hb .sub c f (by omega)]
      cases hres : tys_g rm .sub a b <;> simp [chain, hres, sub_tys_g]
    have heq : ∀ (a b : Ty), tsize a + tsize b ≤ n →
        type_needs_infer a = false → type_needs_infer b = false →
        ∀ (c : Ctxt) (fuel : Nat), 8 * (tsize a + tsize b) + 8 ≤ fuel →
          eq_tys rm fuel c a b = some (eq_tys_g rm a b, c) := by
      intro a b hn ha hb c fuel hf
      obtain ⟨f, rfl⟩ : ∃ f, fuel = f + 1 := ⟨fuel - 1, by omega⟩
      simp only [eq_tys]
      rw [hsub a b hn ha hb c f (by omega)]
      cases hres : sub_tys_g rm a b with
      | error e => simp [chain, hres, eq_tys_g]
      | ok u =>
        simp only [chain]
        rw [hsub b a (by omega) hb ha c f (by omega)]
        simp [eq_tys_g, hres]
    have hmts : ∀ (ma mb : Mt), tsize ma.ty + tsize mb.ty ≤ n →
        type_needs_infer ma.ty = false → type_needs_infer mb.ty = false →
        ∀ (cmb : Cmb) (c : Ctxt) (fuel : Nat), 8 * (tsize ma.ty + tsize mb.ty) + 9 ≤ fuel →
          mts rm fuel cmb c ma mb = some (mts_g rm cmb ma mb, c) := by
      intro ma mb hn h1 h2 cmb c fuel hf
      obtain ⟨f, rfl⟩ : ∃ f, fuel = f + 1 := ⟨fuel - 1, by omega⟩
      obtain ⟨aty, amut⟩ := ma
      obtain ⟨bty, bmut⟩ := mb
      simp only at hn h1 h2 hf
      cases cmb with
      | sub =>
        by_cases hc : amut ≠ bmut ∧ bmut ≠ Mutability.m_const
        · simp [mts, mts_g, hc]
        · cases bmut with
          | m_mutbl =>
            simp only [mts, mts_g, if_neg hc]
            rw [heq aty bty hn h1 h2 c f (by omega)]
            cases hres : eq_tys_g rm aty bty <;> simp [chain, hres]
          | m_imm =>
            simp only [mts, mts_g, if_neg hc]
            rw [htys aty bty hn h1 h2 .sub c f (by omega)]
            cases hres : tys_g rm .sub aty bty <;> simp [chain, hres]
          | m_const =>
            simp only [mts, mts_g, if_neg hc]
            rw [htys aty bty hn h1 h2 .sub c f (by omega)]
            cases hres : tys_g rm .sub aty bty <;> simp [chain, hres]
      | lub =>
        by_cases hmm : amut = bmut
        · subst hmm
          cases amut with
          | m_imm =>
            simp only [mts, mts_g, if_pos rfl]
            rw [htys aty bty hn h1 h2 .lub c f (by omega)]
            cases hres : tys_g rm .lub aty bty <;> simp [chain, hres]
          | m_const =>
            simp only [mts, mts_g, if_pos rfl]
            rw [htys aty bty hn h1 h2 .lub c f (by omega)]
            cases hres : tys_g rm .lub aty bty <;> simp [chain, hres]
          | m_mutbl =>
            simp only [mts, mts_g, if_pos rfl]
            have hinner : (fun c1 => chain (eq_tys rm f c1 aty bty)
                (fun _ c2 => some (Except.ok (⟨aty, Mutability.m_mutbl⟩ : Mt), c2))) c
                = some ((match eq_tys_g rm aty bty with
                    | .ok _ => Except.ok (⟨aty, Mutability.m_mutbl⟩ : Mt)
                    | .error e => Except.error e), c) := by
              simp only
              rw [heq aty bty hn h1 h2 c f (by omega)]
              cases hres : eq_tys_g rm aty bty <;> simp [chain, hres]
            rw [tryF_pure _ c _ hinner]
            cases hres : eq_tys_g rm aty bty with
            | ok u => simp [hres]
            | error e =>
              simp only [hres]
              rw [htys aty bty hn h1 h2 .lub c f (by omega)]
              cases hres2 : tys_g rm .lub aty bty <;> simp [chain, hres2]
        · have hm : (if amut = bmut then amut else Mutability.m_const) = .m_const :=
            if_neg hmm
          simp only [mts, mts_g, hm]
          rw [htys aty bty hn h1 h2 .lub c f (by omega)]
          cases hres : tys_g rm .lub aty bty <;> simp [chain, hres]
      | glb =>
        cases amut <;> cases bmut <;> simp only [mts, mts_g]
        case m_mutbl.m_const =>
          rw [htys aty bty hn h1 h2 .sub c f (by omega)]
          cases hres : tys_g rm .sub aty bty <;> simp [chain, hres]
        case m_const.m_mutbl =>
          rw [htys bty aty (by omega) h2 h1 .sub c f (by omega)]
          cases hres : tys_g rm .sub bty aty <;> simp [chain, hres]
        case m_mutbl.m_mutbl =>
          rw [heq aty bty hn h1 h2 c f (by omega)]
          cases hres : eq_tys_g rm aty bty <;> simp [chain, hres]
        case m_imm.m_const =>
          rw [htys aty bty hn h1 h2 .glb c f (by omega)]
          cases hres : tys_g rm .glb aty bty <;> simp [chain, hres]
        case m_const.m_imm =>
          rw [htys aty bty hn h1 h2 .glb c f (by omega)]
          cases hres : tys_g rm .glb aty bty <;> simp [chain, hres]
        case m_imm.m_imm =>
          rw [htys aty bty hn h1 h2 .glb c f (by omega)]
          cases hres : tys_g rm .glb aty bty <;> simp [chain, hres]
        case m_const.m_const =>
          rw [htys aty bty hn h1 h2 .glb c f (by omega)]
          cases hres : tys_g rm .glb aty bty <;> simp [chain, hres]
    exact ⟨hsuper, htys, hsub, heq, hmts⟩

/-- On ground types any combiner's `tys` is pure: it computes `tys_g` and
leaves the context untouched. -/
theorem tysC_ground (rm : RM) (a b : Ty)
    (ha : type_needs_infer a = false) (hb : type_needs_infer b = false)
    (cmb : Cmb) (c : Ctxt) (fuel : Nat) (hf : 8 * (tsize a + tsize b) + 6 ≤ fuel) :
    tysC rm fuel cmb c a b = some (tys_g rm cmb a b, c) :=
  (combine_ground rm (tsize a + tsize b)).2.1 a b (le_refl _) ha hb cmb c fuel hf

/-- On ground types `sub_tys` is pure. -/
theorem sub_tysC_ground (rm : RM) (a b : Ty)
    (ha : type_needs_infer a = false) (hb : type_needs_infer b = false)
    (c : Ctxt) (fuel : Nat) (hf : 8 * (tsize a + tsize b) + 7 ≤ fuel) :
    sub_tys rm fuel c a b = some (sub_tys_g rm a b, c) :=
  (combine_ground rm (tsize a + tsize b)).2.2.1 a b (le_refl _) ha hb c fuel hf

/-- On ground types `eq_tys` is pure. -/
theorem eq_tysC_ground (rm : RM) (a b : Ty)
    (ha : type_needs_infer a = false) (hb : type_needs_infer b = false)
    (c : Ctxt) (fuel : Nat) (hf : 8 * (tsize a + tsize b) + 8 ≤ fuel) :
    eq_tys rm fuel c a b = some (eq_tys_g rm a b, c) :=
  (combine_ground rm (tsize a + tsize b)).2.2.2.1 a b (le_refl _) ha hb c fuel hf

/-- Every type has positive size. -/
theorem tsize_pos (t : Ty) : 1 ≤ tsize t := by
  cases t <;> simp [tsize]

set_option maxHeartbeats 1600000 in
/-- Groundness and size preservation of the pure combiners: a successful
combination of ground types is ground and no larger than its inputs
combined. -/
theorem combine_g_preserves (rm : RM) : ∀ n : Nat,
    (∀ (a b t : Ty) (cmb : Cmb), tsize a + tsize b ≤ n →
      type_needs_infer a = false → type_needs_infer b = false →
      super_tys_g rm cmb a b = .ok t →
      type_needs_infer t = false ∧ tsize t ≤ tsize a + tsize b) ∧
    (∀ (a b t : Ty) (cmb : Cmb), tsize a + tsize b ≤ n →
      type_needs_infer a = false → type_needs_infer b = false →
      tys_g rm cmb a b = .ok t →
      type_needs_infer t = false ∧ tsize t ≤ tsize a + tsize b) ∧
    (∀ (ma mb mt : Mt) (cmb : Cmb), tsize ma.ty + tsize mb.ty ≤ n →
      type_needs_infer ma.ty = false → type_needs_infer mb.ty = false →
      mts_g rm cmb ma mb = .ok mt →
      type_needs_infer mt.ty = false ∧ tsize mt.ty ≤ tsize ma.ty + tsize mb.ty) := by
  intro n
  induction n using Nat.strong_induction_on with
  | _ n ih =>
    have hsup : ∀ (a b t : Ty) (cmb : Cmb), tsize a + tsize b ≤ n →
        type_needs_infer a = false → type_needs_infer b = false →
        super_tys_g rm cmb a b = .ok t →
        type_needs_infer t = false ∧ tsize t ≤ tsize a + tsize b := by
      intro a b t cmb hn ha hb h
      cases a <;> cases b <;>
        first
        | (simp [type_needs_infer] at ha; done)
        | (simp [type_needs_infer] at hb; done)
        | (simp [super_tys_g] at h; done)
        | (simp only [super_tys_g] at h
           split at h
           · cases h; exact ⟨ha, by omega⟩
           · cases h
           done)
        | (rename_i t1 m1 t2 m2
           simp only [super_tys_g] at h
           cases hm : mts_g rm cmb ⟨t1, m1⟩ ⟨t2, m2⟩ with
           | error e => rw [hm] at h; cases h
           | ok mt =>
             rw [hm] at h
             cases h
             have h1 : type_needs_infer t1 = false := by simpa [type_needs_infer] using ha
             have h2 : type_needs_infer t2 = false := by simpa [type_needs_infer] using hb
             have hrec := (ih (tsize t1 + tsize t2)
                 (by simp only [tsize] at hn; omega)).2.2
               ⟨t1, m1⟩ ⟨t2, m2⟩ mt cmb (by simp) h1 h2 hm
             refine ⟨by simpa [type_needs_infer] using hrec.1, ?_⟩
             have := hrec.2
             simp only [tsize]
             simp only at this
             omega
           done)
        | (rename_i r1 t1 m1 r2 t2 m2
           simp only [super_tys_g] at h
           obtain ⟨hr1, h1⟩ : region_is_var r1 = false ∧ type_needs_infer t1 = false := by
             simpa [type_needs_infer] using ha
           obtain ⟨hr2, h2⟩ : region_is_var r2 = false ∧ type_needs_infer t2 = false := by
             simpa [type_needs_infer] using hb
           cases hcr : contraregions_g rm cmb r1 r2 with
           | error e => rw [hcr] at h; cases h
           | ok r0 =>
             rw [hcr] at h
             cases hm : mts_g rm cmb ⟨t1, m1⟩ ⟨t2, m2⟩ with
             | error e => rw [hm] at h; cases h
             | ok mt =>
               rw [hm] at h
               cases h
               have hrg := contraregions_g_ok_ground rm cmb r1 r2 r0 hr1 hr2 hcr
               have hrec := (ih (tsize t1 + tsize t2)
                   (by simp only [tsize] at hn; omega)).2.2
                 ⟨t1, m1⟩ ⟨t2, m2⟩ mt cmb (by simp) h1 h2 hm
               refine ⟨by simp [type_needs_infer, hrg]; simpa using hrec.1, ?_⟩
               have := hrec.2
               simp only [tsize]
               simp only at this
               omega
           done)
        | (rename_i t1 m1 vs1 t2 m2 vs2
           simp only [super_tys_g] at h
           obtain ⟨h1, hv1⟩ : type_needs_infer t1 = false ∧ vstore_is_var vs1 = false := by
             simpa [type_needs_infer] using ha
           obtain ⟨h2, hv2⟩ : type_needs_infer t2 = false ∧ vstore_is_var vs2 = false := by
             simpa [type_needs_infer] using hb
           cases hm : mts_g rm cmb ⟨t1, m1⟩ ⟨t2, m2⟩ with
           | error e => rw [hm] at h; cases h
           | ok mt =>
             rw [hm] at h
             cases hvs : vstores_g rm cmb .terr_vec vs1 vs2 with
             | error e => rw [hvs] at h; cases h
             | ok vs =>
               rw [hvs] at h
               cases h
               have hvg := vstores_g_ok_ground rm cmb .terr_vec vs1 vs2 vs hv1 hv2 hvs
               have hrec := (ih (tsize t1 + tsize t2)
                   (by simp only [tsize] at hn; omega)).2.2
                 ⟨t1, m1⟩ ⟨t2, m2⟩ mt cmb (by simp) h1 h2 hm
               refine ⟨by simp [type_needs_infer, hvg]; simpa using hrec.1, ?_⟩
               have := hrec.2
               simp only [tsize]
               simp only at this
               omega
           done)
        | (rename_i vs1 vs2
           simp only [super_tys_g] at h
           obtain hv1 : vstore_is_var vs1 = false := by
             simpa [type_needs_infer] using ha
           obtain hv2 : vstore_is_var vs2 = false := by
             simpa [type_needs_infer] using hb
           cases hvs : vstores_g rm cmb .terr_str vs1 vs2 with
           | error e => rw [hvs] at h; cases h
           | ok vs =>
             rw [hvs] at h
             cases h
             have hvg := vstores_g_ok_ground rm cmb .terr_str vs1 vs2 vs hv1 hv2 hvs
             exact ⟨by simpa [type_needs_infer] using hvg, by simp [tsize]⟩
           done)
    have htys : ∀ (a b t : Ty) (cmb : Cmb), tsize a + tsize b ≤ n →
        type_needs_infer a = false → type_needs_infer b = false →
        tys_g rm cmb a b = .ok t →
        type_needs_infer t = false ∧ tsize t ≤ tsize a + tsize b := by
      intro a b t cmb hn ha hb h
      by_cases hab : a = b
      · subst hab
        rw [tys_g.eq_def] at h
        simp only [if_pos rfl] at h
        cases h
        exact ⟨ha, by omega⟩
      · rw [tys_g.eq_def] at h
        rw [if_neg hab] at h
        cases cmb <;> cases a <;> cases b <;>
          first
          | (simp [type_needs_infer] at ha; done)
          | (simp [type_needs_infer] at hb; done)
          | (dsimp only at h
             first
             | (cases h; done)
             | (cases h; exact ⟨ha, by simp only [tsize]; omega⟩)
             | (cases h; exact ⟨hb, by simp only [tsize]; omega⟩)
             | (cases h; exact ⟨rfl, by simp only [tsize]; omega⟩)
             | (exact hsup _ _ _ _ hn ha hb h))
    have hmts : ∀ (ma mb mt : Mt) (cmb : Cmb), tsize ma.ty + tsize mb.ty ≤ n →
        type_needs_infer ma.ty = false → type_needs_infer mb.ty = false →
        mts_g rm cmb ma mb = .ok mt →
        type_needs_infer mt.ty = false ∧ tsize mt.ty ≤ tsize ma.ty + tsize mb.ty := by
      intro ma mb mt cmb hn h1 h2 h
      obtain ⟨aty, amut⟩ := ma
      obtain ⟨bty, bmut⟩ := mb
      simp only at hn h1 h2 ⊢
      cases cmb with
      | sub =>
        simp only [mts_g] at h
        split at h
        · cases h
        · cases bmut <;> simp only at h
          all_goals
            first
            | (cases he : eq_tys_g rm aty bty with
               | error e => rw [he] at h; cases h
               | ok u => rw [he] at h; cases h; exact ⟨h1, by dsimp only; omega⟩)
            | (cases he : tys_g rm .sub aty bty with
               | error e => rw [he] at h; cases h
               | ok u => rw [he] at h; cases h; exact ⟨h1, by dsimp only; omega⟩)
      | lub =>
        simp only [mts_g] at h
        by_cases hmm : amut = bmut
        · subst hmm
          simp only [if_pos rfl] at h
          cases amut with
          | m_imm =>
            (try dsimp only at h)
            cases he : tys_g rm .lub aty bty with
            | error e => rw [he] at h; cases h
            | ok tv =>
              rw [he] at h; cases h
              exact htys aty bty tv .lub hn h1 h2 he
          | m_const =>
            (try dsimp only at h)
            cases he : tys_g rm .lub aty bty with
            | error e => rw [he] at h; cases h
            | ok tv =>
              rw [he] at h; cases h
              exact htys aty bty tv .lub hn h1 h2 he
          | m_mutbl =>
            (try dsimp only at h)
            cases he : eq_tys_g rm aty bty with
            | ok u => rw [he] at h; cases h; exact ⟨h1, by dsimp only; omega⟩
            | error e =>
              rw [he] at h
              cases he2 : tys_g rm .lub aty bty with
              | error e2 => rw [he2] at h; cases h
              | ok tv =>
                rw [he2] at h; cases h
                exact htys aty bty tv .lub hn h1 h2 he2
        · have hm : (if amut = bmut then amut else Mutability.m_const) = .m_const :=
            if_neg hmm
          rw [hm] at h
          simp only at h
          cases he : tys_g rm .lub aty bty with
          | error e => rw [he] at h; cases h
          | ok tv =>
            rw [he] at h; cases h
            exact htys aty bty tv .lub hn h1 h2 he
      | glb =>
        simp only [mts_g] at h
        cases amut <;> cases bmut <;> simp only at h
        all_goals
          first
          | (cases h)
          | (cases he : eq_tys_g rm aty bty with
             | error e => rw [he] at h; cases h
             | ok u => rw [he] at h; cases h; exact ⟨h1, by dsimp only; omega⟩)
          | (cases he : tys_g rm .sub aty bty with
             | error e => rw [he] at h; cases h
             | ok u => rw [he] at h; cases h; exact ⟨h1, by dsimp only; omega⟩)
          | (cases he : tys_g rm .sub bty aty with
             | error e => rw [he] at h; cases h
             | ok u => rw [he] at h; cases h; exact ⟨h2, by dsimp only; omega⟩)
          | (cases he : tys_g rm .glb aty bty with
             | error e => rw [he] at h; cases h
             | ok tv => rw [he] at h; cases h; exact htys aty bty tv .glb hn h1 h2 he)
    exact ⟨hsup, htys, hmts⟩

/-! ### Concrete stores and contexts used by the claim theorems -/

/-- Bounds carrying an `int` upper bound. -/
def A1 : Bounds Ty := ⟨none, some (.ty_int 0)⟩

/-- A type-variable store with redirect chain 3 → 2 → 1 and roots 1 (bounds
`A1`) and 0 (empty bounds), with an empty journal. -/
def c0 : Ctxt :=
  ⟨⟨[(3, .redirect 2), (2, .redirect 1), (1, .bounded A1), (0, .bounded ⟨none, none⟩)], []⟩,
   ⟨[], []⟩, []⟩

/-- A failing action for `try`: journal a redirect 1 → 0 with `set`, force
path compression through the chain with `get 3`, then fail. -/
def c1FailF (c : Ctxt) : Option (Except TyErr Unit × Ctxt) :=
  match set c.vb 1 (.redirect 0) with
  | none => none
  | some vb1 =>
    match get vb1 3 with
    | none => none
    | some (_, vb2) => some (.error .terr_mutability, { c with vb := vb2 })

/-- A store with redirect chain 2 → 1 → 0 and root 0. -/
def vb4 : VB Ty := ⟨[(2, .redirect 1), (1, .redirect 0), (0, .bounded ⟨none, none⟩)], []⟩

/-- The store `get vb4 2` returns: compression rewrote node 1, but the entry
node 2 still points at 1. -/
def vb4' : VB Ty :=
  ⟨[(1, .redirect 0), (2, .redirect 1), (1, .redirect 0), (0, .bounded ⟨none, none⟩)], []⟩

/-- A store with redirect chain 3 → 2 → 1 → 0 and root 0. -/
def vb5 : VB Ty :=
  ⟨[(3, .redirect 2), (2, .redirect 1), (1, .redirect 0), (0, .bounded ⟨none, none⟩)], []⟩

/-- The store `getF 5 vb5 3` returns: nodes 1 and 2 were rewritten by path
compression, yet the journal is still empty. -/
def vb5' : VB Ty :=
  ⟨[(2, .redirect 0), (1, .redirect 0), (3, .redirect 2), (2, .redirect 1), (1, .redirect 0),
    (0, .bounded ⟨none, none⟩)], []⟩

/-- A one-entry store used to witness the journalling behaviour of `set`. -/
def vbJ : VB Ty := ⟨[(7, .bounded ⟨none, none⟩)], []⟩

/-- The store `set vbJ 7 (redirect 0)` produces. -/
def vbJ' : VB Ty :=
  ⟨[(7, .redirect 0), (7, .bounded ⟨none, none⟩)], [(7, .bounded ⟨none, none⟩)]⟩

/-- C1: the claim that a failing `try(f)` leaves every `get(v)` unchanged
fails in the code.  Before the `try`, `get 2` reaches root 1 with bounds
`A1`; the failing action journals one `set`, forces path compression through
`get 3`, and fails; the compression writes bypass the journal, so after the
rollback `get 2` reaches root 0 with empty bounds — the upper bound `A1` of
variable 2 is lost. -/
theorem try_rollback_get_changed :
    ((get c0.vb 2).map (fun x => x.1) = some (1, A1)) ∧
    ((tryF c1FailF c0).bind (fun rc => (get rc.2.vb 2).map (fun x => x.1))
      = some (0, (⟨none, none⟩ : Bounds Ty))) := by decide

/-- C4 counterexample: `get vb4 2` returns root 0, yet the entry node 2 of
the chain still holds `redirect 1` afterwards — not every redirect reachable
through 2 points at the root. -/
theorem get_compression_entry_node_cex :
    (get vb4 2).map (fun x => (x.1.1, x.2.vals.lookup 2))
      = some (0, some (.redirect 1)) := by decide

/-- C4 (amended): `get v` returns a root `r` whose store entry is
`Bounded(_)`, and every node *strictly past `v`* on the redirect chain (every
redirect target reachable from `v`), other than the root itself, points
directly at `r` afterwards.  The entry node `v` itself is only re-pointed one
level behind, because the source's pattern `some(redirect(vid))` shadows the
`vid` parameter (see the counterexample). -/
theorem get_compression_amended {T : Type} (vb : VB T) (v r : Nat) (b : Bounds T)
    (vb' : VB T) (h : get vb v = some ((r, b), vb')) :
    RootsTo vb v r b ∧ vb'.vals.lookup r = some (.bounded b) ∧
    ∀ w, Tgt vb v w → w ≠ r → vb'.vals.lookup w = some (.redirect r) := by
  obtain ⟨h1, _, h3, h4, _, _⟩ := getF_spec vb _ v r b vb' h
  exact ⟨h1, h3, h4⟩

/-- Witness for the amended C4 theorem at the concrete store `vb4`. -/
theorem get_compression_amended_witness :
    RootsTo vb4 2 0 (⟨none, none⟩ : Bounds Ty) ∧
    vb4'.vals.lookup 0 = some (.bounded ⟨none, none⟩) ∧
    (∀ w, Tgt vb4 2 w → w ≠ 0 → vb4'.vals.lookup w = some (.redirect 0)) :=
  get_compression_amended vb4 2 0 ⟨none, none⟩ vb4' (by decide)

/-- C5 counterexample: `getF 5 vb5 3` rewrites node 2 from `redirect 1` to
`redirect 0` while leaving the journal empty — a store mutation with no
journal entry. -/
theorem compression_unjournalled_cex :
    getF 5 vb5 3 = some ((0, ⟨none, none⟩), vb5') ∧
    vb5.vals.lookup 2 = some (.redirect 1) ∧
    vb5'.vals.lookup 2 = some (.redirect 0) ∧
    vb5'.bindings = vb5.bindings := by decide

/-- C5 (amended): the `set` operation journals every mutation — it pushes the
prior `VarValue` before overwriting — but the `Redirect` writes performed by
path compression inside `get` bypass the journal entirely: `get` never
changes `bindings`.  The journal therefore holds one entry per `set`, not one
entry per store mutation. -/
theorem journal_amended {T : Type} :
    (∀ (vb : VB T) (v : Nat) (nv oldv : VarValue T) (vb' : VB T),
      vb.vals.lookup v = some oldv → set vb v nv = some vb' →
      vb'.bindings = (v, oldv) :: vb.bindings) ∧
    (∀ (fuel : Nat) (vb : VB T) (v r : Nat) (b : Bounds T) (vb' : VB T),
      getF fuel vb v = some ((r, b), vb') → vb'.bindings = vb.bindings) := by
  constructor
  · intro vb v nv oldv vb' hl hs
    simp only [set, hl] at hs
    cases hs
    rfl
  · intro fuel vb v r b vb' h
    exact (getF_spec vb fuel v r b vb' h).2.1

/-- Witness for the amended C5 theorem: a journalled `set` on `vbJ` and an
unjournalled compressing `get` on `vb5`. -/
theorem journal_amended_witness :
    vbJ'.bindings = (7, VarValue.bounded (⟨none, none⟩ : Bounds Ty)) :: vbJ.bindings ∧
    vb5'.bindings = vb5.bindings :=
  ⟨journal_amended.1 vbJ 7 (.redirect 0) (.bounded ⟨none, none⟩) vbJ' (by decide) (by decide),
   journal_amended.2 5 vb5 3 0 ⟨none, none⟩ vb5' (by decide)⟩

/-- A region oracle that never finds a common ancestor. -/
def rm0 : RM := fun _ _ => none

/-- The type combiner at fuel 100 over `rm0`. -/
def tfun : Cmb → Ctxt → Ty → Ty → Option (cres Ty × Ctxt) :=
  fun k c x y => tysC rm0 100 k c x y

/-- The `st` operations for `tfun`. -/
def tops100 : VarOps Ty := mkTyOps tfun

/-- A context whose type store is the redirect chain 0 → 1 → 2 → 3. -/
def c2s : Ctxt :=
  ⟨⟨[(0, .redirect 1), (1, .redirect 2), (2, .redirect 3), (3, .bounded ⟨none, none⟩)], []⟩,
   ⟨[], []⟩, []⟩

/-- The box type `@ty_var(0)`. -/
def tboxvar : Ty := .ty_box (.ty_var 0) .m_imm

/-- The box type `@bot`. -/
def tboxbot : Ty := .ty_box .ty_bot .m_imm

/-- A context with two root variables: 0 has upper bound `@ty_var(0)` (its
own box), 1 has lower bound `@bot`. -/
def c2s2 : Ctxt :=
  ⟨⟨[(0, .bounded ⟨none, some tboxvar⟩), (1, .bounded ⟨some tboxbot, none⟩)], []⟩,
   ⟨[], []⟩, []⟩

/-- The store `get c2s.vb 0` leaves behind. -/
def vbA : VB Ty :=
  ⟨[(1, .redirect 3), (2, .redirect 3), (0, .redirect 1), (1, .redirect 2), (2, .redirect 3),
    (3, .bounded ⟨none, none⟩)], []⟩

/-- The store the second `get` of `vars tops100 c2s 0 0` leaves behind. -/
def vbB : VB Ty :=
  ⟨[(1, .redirect 3), (1, .redirect 3), (2, .redirect 3), (0, .redirect 1), (1, .redirect 2),
    (2, .redirect 3), (3, .bounded ⟨none, none⟩)], []⟩

/-- C2 counterexample: (i) `relate_vars(0, 0)` on the chain `c2s` succeeds
but rewrites variable 1's redirect from 2 to 3 — the same-root case is not
free of store changes; (ii) on `c2s2` the cheap `a.ub <: b.lb` check succeeds
(`@bot <: @ty_var(0)` unifies the inner variable), and `relate_vars(0, 1)`
returns success with root 0's own upper bound rewritten from `@ty_var(0)` to
`@bot` — the cheap-success case does not leave the roots' bounds unchanged. -/
theorem relate_vars_cex :
    ((vars tops100 c2s 0 0).map (fun rc => (rc.1, rc.2.vb.vals.lookup 1))
        = some (.ok (), some (.redirect 3))) ∧
    c2s.vb.vals.lookup 1 = some (.redirect 2) ∧
    ((vars tops100 c2s2 0 1).map (fun rc => (rc.1, rc.2.vb.vals.lookup 0))
        = some (.ok (), some (.bounded ⟨none, some .ty_bot⟩))) ∧
    c2s2.vb.vals.lookup 0 = some (.bounded ⟨none, some tboxvar⟩) := by decide

/-- C2 (amended): `relate_vars` on the type store behaves as follows.  If the
two ids reach the same root it succeeds, and while path compression may
rewrite redirects, the journal and every variable's observable root bounds
are preserved.  If the roots differ and both the first root's upper bound
and the second root's lower bound are present, a successful `try` of that
subtype check ends the call with whatever context the check produced (which
may include changed bounds).  If that check fails, or one of the two bounds
is absent, the second root is redirected to the first and the merged bounds
are installed there via `set_var_to_merged_bounds`. -/
theorem relate_vars_amended (t : Cmb → Ctxt → Ty → Ty → Option (cres Ty × Ctxt)) :
    (∀ (c : Ctxt) (a_id b_id r : Nat) (ba bb : Bounds Ty) (vb1 vb2 : VB Ty),
      get c.vb a_id = some ((r, ba), vb1) →
      get vb1 b_id = some ((r, bb), vb2) →
      vars (mkTyOps t) c a_id b_id = some (.ok (), { c with vb := vb2 }) ∧
      vb2.bindings = c.vb.bindings ∧
      (∀ w rr bbw, RootsTo c.vb w rr bbw → RootsTo vb2 w rr bbw)) ∧
    (∀ (c : Ctxt) (a_id b_id ra rb : Nat) (ba bb : Bounds Ty) (vb1 vb2 : VB Ty)
      (a_ub b_lb : Ty) (u : Unit) (c3 : Ctxt),
      get c.vb a_id = some ((ra, ba), vb1) →
      get vb1 b_id = some ((rb, bb), vb2) → ra ≠ rb →
      ba.ub = some a_ub → bb.lb = some b_lb →
      tryF (fun cx => (mkTyOps t).subo cx a_ub b_lb) { c with vb := vb2 } = some (.ok u, c3) →
      vars (mkTyOps t) c a_id b_id = some (.ok (), c3)) ∧
    (∀ (c : Ctxt) (a_id b_id ra rb : Nat) (ba bb : Bounds Ty) (vb1 vb2 : VB Ty)
      (a_ub b_lb : Ty) (e : TyErr) (c3 : Ctxt),
      get c.vb a_id = some ((ra, ba), vb1) →
      get vb1 b_id = some ((rb, bb), vb2) → ra ≠ rb →
      ba.ub = some a_ub → bb.lb = some b_lb →
      tryF (fun cx => (mkTyOps t).subo cx a_ub b_lb) { c with vb := vb2 } = some (.error e, c3) →
      vars (mkTyOps t) c a_id b_id =
        (match set c3.vb rb (.redirect ra) with
         | none => none
         | some vb3 =>
           chain (set_var_to_merged_bounds (mkTyOps t) { c3 with vb := vb3 } ra ba bb)
             (fun _ c4 => some (.ok (), c4)))) ∧
    (∀ (c : Ctxt) (a_id b_id ra rb : Nat) (ba bb : Bounds Ty) (vb1 vb2 : VB Ty),
      get c.vb a_id = some ((ra, ba), vb1) →
      get vb1 b_id = some ((rb, bb), vb2) → ra ≠ rb →
      (ba.ub = none ∨ bb.lb = none) →
      vars (mkTyOps t) c a_id b_id =
        (match set vb2 rb (.redirect ra) with
         | none => none
         | some vb3 =>
           chain (set_var_to_merged_bounds (mkTyOps t) { c with vb := vb3 } ra ba bb)
             (fun _ c4 => some (.ok (), c4)))) := by
  refine ⟨?_, ?_, ?_, ?_⟩
  · intro c a_id b_id r ba bb vb1 vb2 h1 h2
    refine ⟨?_, ?_, ?_⟩
    · simp only [vars, mkTyOps]
      rw [h1]
      dsimp only
      rw [h2]
      dsimp only
      rw [if_pos rfl]
    · have g1 := (getF_spec c.vb _ a_id r ba vb1 h1).2.1
      have g2 := (getF_spec vb1 _ b_id r bb vb2 h2).2.1
      rw [g2, g1]
    · intro w rr bbw hw
      exact (getF_spec vb1 _ b_id r bb vb2 h2).2.2.2.2.1 w rr bbw
        ((getF_spec c.vb _ a_id r ba vb1 h1).2.2.2.2.1 w rr bbw hw)
  · intro c a_id b_id ra rb ba bb vb1 vb2 a_ub b_lb u c3 h1 h2 hne hub hlb htry
    simp only [mkTyOps] at htry
    simp only [vars, mkTyOps]
    rw [h1]
    dsimp only
    rw [h2]
    dsimp only
    rw [if_neg hne, hub, hlb]
    dsimp only
    rw [htry]
  · intro c a_id b_id ra rb ba bb vb1 vb2 a_ub b_lb e c3 h1 h2 hne hub hlb htry
    simp only [mkTyOps] at htry
    simp only [vars, mkTyOps]
    rw [h1]
    dsimp only
    rw [h2]
    dsimp only
    rw [if_neg hne, hub, hlb]
    dsimp only
    rw [htry]
    dsimp only
    cases hset : set c3.vb rb (VarValue.redirect ra) with
    | none => rfl
    | some vb3 => rfl
  · intro c a_id b_id ra rb ba bb vb1 vb2 h1 h2 hne hmiss
    simp only [vars, mkTyOps]
    rw [h1]
    dsimp only
    rw [h2]
    dsimp only
    rw [if_neg hne]
    cases hu : ba.ub with
    | some a_ub =>
      cases hl : bb.lb with
      | some b_lb =>
        rcases hmiss with hm | hm
        · rw [hu] at hm; cases hm
        · rw [hl] at hm; cases hm
      | none =>
        dsimp only
        cases hset : set vb2 rb (VarValue.redirect ra) with
        | none => rfl
        | some vb3 => rfl
    | none =>
      cases hl : bb.lb <;>
        (dsimp only
         cases hset : set vb2 rb (VarValue.redirect ra) with
         | none => rfl
         | some vb3 => rfl)

/-- Witness for the same-root part of the amended C2 theorem at `c2s`. -/
theorem relate_vars_amended_witness :
    vars tops100 c2s 0 0 = some (.ok (), { c2s with vb := vbB }) ∧
    vbB.bindings = c2s.vb.bindings :=
  ⟨((relate_vars_amended tfun).1 c2s 0 0 3 ⟨none, none⟩ ⟨none, none⟩ vbA vbB
      (by decide) (by decide)).1,
   ((relate_vars_amended tfun).1 c2s 0 0 3 ⟨none, none⟩ ⟨none, none⟩ vbA vbB
      (by decide) (by decide)).2.1⟩

/-- C10: for a ground type `a` that is not bot, `sub.tys(a, bot)` — and hence
`mk_subty(a, bot)` on an empty-journal context — returns a sorts error and
leaves the context unchanged: bot is a subtype of everything but a supertype
only of itself. -/
theorem sub_tys_bot_error (rm : RM) (a : Ty) (ha : type_needs_infer a = false)
    (hbot : a ≠ .ty_bot) (c : Ctxt) (hvb : c.vb.bindings = []) (hrb : c.rb.bindings = [])
    (fuel : Nat) (hf : 8 * (tsize a + 1) + 7 ≤ fuel) :
    tysC rm fuel .sub c a .ty_bot = some (.error (.terr_sorts .ty_bot a), c) ∧
    mk_subty rm fuel c a .ty_bot = some (.error (.terr_sorts .ty_bot a), c) := by
  have hgb : type_needs_infer Ty.ty_bot = false := rfl
  have hval : tys_g rm .sub a .ty_bot = .error (.terr_sorts .ty_bot a) := by
    cases a <;>
      first
      | (exact absurd rfl hbot)
      | (simp [type_needs_infer] at ha; done)
      | (simp [tys_g.eq_def])
  have htysg := tysC_ground rm a .ty_bot ha hgb .sub c fuel (by simp only [tsize]; omega)
  have hsubg := sub_tysC_ground rm a .ty_bot ha hgb c fuel (by simp only [tsize]; omega)
  have hsval : sub_tys_g rm a .ty_bot = .error (.terr_sorts .ty_bot a) := by
    simp [sub_tys_g, hval]
  refine ⟨?_, ?_⟩
  · rw [htysg, hval]
  · simp only [mk_subty]
    exact commit_pure _ c _ hvb hrb
      (show sub_tys rm fuel c a .ty_bot = some (.error (.terr_sorts .ty_bot a), c) by
        rw [hsubg, hsval])

/-- Witness for C10 at `int <: bot`. -/
theorem sub_tys_bot_error_witness :
    tysC rm0 30 .sub freshCtxt (.ty_int 0) .ty_bot
        = some (.error (.terr_sorts .ty_bot (.ty_int 0)), freshCtxt) ∧
    mk_subty rm0 30 freshCtxt (.ty_int 0) .ty_bot
        = some (.error (.terr_sorts .ty_bot (.ty_int 0)), freshCtxt) :=
  sub_tys_bot_error rm0 (.ty_int 0) rfl (by decide) freshCtxt rfl rfl 30 (by decide)

/-- C9: the `lub.regions` table on ground regions: static absorbs
everything; two scopes give the nearest common ancestor scope, or static when
the oracle finds none; a free region against a scope gives the free region
exactly when the oracle returns the free region's id, else static; equal
free/free or bound/bound give the common region, unequal ones static; and on
any pair of ground regions the result is a success, never an error. -/
theorem lub_regions_table (rm : RM) (c : Ctxt) (fuel : Nat) (hf : 1 ≤ fuel) :
    (∀ b, region_is_var b = false →
      regionsC rm fuel .lub c .re_static b = some (.ok .re_static, c)) ∧
    (∀ a, region_is_var a = false →
      regionsC rm fuel .lub c a .re_static = some (.ok .re_static, c)) ∧
    (∀ sa sb, regionsC rm fuel .lub c (.re_scope sa) (.re_scope sb)
        = some (.ok (match rm sa sb with
            | some nca => .re_scope nca
            | none => .re_static), c)) ∧
    (∀ f nm s, regionsC rm fuel .lub c (.re_free f nm) (.re_scope s)
        = some (.ok (match rm f s with
            | some r => if r = f then .re_free f nm else .re_static
            | none => .re_static), c)) ∧
    (∀ f nm s, regionsC rm fuel .lub c (.re_scope s) (.re_free f nm)
        = some (.ok (match rm f s with
            | some r => if r = f then .re_free f nm else .re_static
            | none => .re_static), c)) ∧
    (∀ f1 n1 f2 n2, regionsC rm fuel .lub c (.re_free f1 n1) (.re_free f2 n2)
        = some (.ok (if (Region.re_free f1 n1 : Region) = .re_free f2 n2
            then .re_free f1 n1 else .re_static), c)) ∧
    (∀ i1 i2, regionsC rm fuel .lub c (.re_bound i1) (.re_bound i2)
        = some (.ok (if (Region.re_bound i1 : Region) = .re_bound i2
            then .re_bound i1 else .re_static), c)) ∧
    (∀ a b, region_is_var a = false → region_is_var b = false →
      ∃ r, regionsC rm fuel .lub c a b = some (.ok r, c)) := by
  refine ⟨?_, ?_, ?_, ?_, ?_, ?_, ?_, ?_⟩
  · intro b hb
    rw [regionsC_lub_ground rm .re_static b rfl hb c fuel hf]
    cases b <;> rfl
  · intro a ha
    rw [regionsC_lub_ground rm a .re_static ha rfl c fuel hf]
    cases a <;> rfl
  · intro sa sb
    rw [regionsC_lub_ground rm (.re_scope sa) (.re_scope sb) rfl rfl c fuel hf]
    rfl
  · intro f nm s
    rw [regionsC_lub_ground rm (.re_free f nm) (.re_scope s) rfl rfl c fuel hf]
    rfl
  · intro f nm s
    rw [regionsC_lub_ground rm (.re_scope s) (.re_free f nm) rfl rfl c fuel hf]
    rfl
  · intro f1 n1 f2 n2
    rw [regionsC_lub_ground rm (.re_free f1 n1) (.re_free f2 n2) rfl rfl c fuel hf]
    rfl
  · intro i1 i2
    rw [regionsC_lub_ground rm (.re_bound i1) (.re_bound i2) rfl rfl c fuel hf]
    rfl
  · intro a b ha hb
    exact ⟨lub_regions_g rm a b, regionsC_lub_ground rm a b ha hb c fuel hf⟩

/-- A region oracle returning the smaller id as the common ancestor. -/
def rmin : RM := fun x y => some (Nat.min x y)

/-- Witness for the scope/scope row of the C9 table. -/
theorem lub_regions_table_witness :
    regionsC rmin 1 .lub freshCtxt (.re_scope 4) (.re_scope 7)
      = some (.ok (.re_scope 4), freshCtxt) := by
  rw [(lub_regions_table rmin freshCtxt 1 (by decide)).2.2.1 4 7]
  rfl

/-- The type `&ρ₀.&ρ₀.int`: one region variable used contravariantly at two
depths. -/
def tyA : Ty := .ty_rptr (.re_var 0) (.ty_rptr (.re_var 0) (.ty_int 0) .m_imm) .m_imm

/-- The type `&scope(1).&scope(2).int`. -/
def tyB : Ty := .ty_rptr (.re_scope 1) (.ty_rptr (.re_scope 2) (.ty_int 0) .m_imm) .m_imm

/-- C6 counterexample: with inference variables present the equivalence
fails.  `make_subtype(tyA, tyB)` and `make_subtype(tyB, tyA)` each succeed on
a fresh context — each run can pick its own bounds for the region variable —
but `make_equal(tyA, tyB)` fails: one shared variable cannot equal both
`scope(1)` and `scope(2)`. -/
theorem make_equal_cex :
    (mk_subty rmin 100 freshCtxt tyA tyB).map (fun rc => rc.1.isOk) = some true ∧
    (mk_subty rmin 100 freshCtxt tyB tyA).map (fun rc => rc.1.isOk) = some true ∧
    (mk_eqty rmin 100 freshCtxt tyA tyB).map (fun rc => rc.1.isOk) = some false := by
  decide

/-- C6 (amended): on ground (inference-variable-free) types, `make_equal`
succeeds on an empty-journal context exactly when both `make_subtype`s do,
each leaving the context unchanged. -/
theorem make_equal_amended (rm : RM) (a b : Ty)
    (ha : type_needs_infer a = false) (hb : type_needs_infer b = false)
    (c : Ctxt) (hvb : c.vb.bindings = []) (hrb : c.rb.bindings = [])
    (fuel : Nat) (hf : 8 * (tsize a + tsize b) + 8 ≤ fuel) :
    mk_eqty rm fuel c a b = some (.ok (), c) ↔
      (mk_subty rm fuel c a b = some (.ok (), c) ∧
       mk_subty rm fuel c b a = some (.ok (), c)) := by
  have hpure : eq_tys_g rm a b = .ok () ↔
      (sub_tys_g rm a b = .ok () ∧ sub_tys_g rm b a = .ok ()) := by
    cases h1 : sub_tys_g rm a b with
    | error e => simp [eq_tys_g, h1]
    | ok u =>
      cases u
      cases h2 : sub_tys_g rm b a with
      | error e => simp [eq_tys_g, h1, h2]
      | ok v => cases v; simp [eq_tys_g, h1, h2]
  have hceq : mk_eqty rm fuel c a b = some (eq_tys_g rm a b, c) := by
    simp only [mk_eqty]
    exact commit_pure _ c _ hvb hrb (eq_tysC_ground rm a b ha hb c fuel hf)
  have hcs1 : mk_subty rm fuel c a b = some (sub_tys_g rm a b, c) := by
    simp only [mk_subty]
    exact commit_pure _ c _ hvb hrb (sub_tysC_ground rm a b ha hb c fuel (by omega))
  have hcs2 : mk_subty rm fuel c b a = some (sub_tys_g rm b a, c) := by
    simp only [mk_subty]
    exact commit_pure _ c _ hvb hrb (sub_tysC_ground rm b a hb ha c fuel (by omega))
  rw [hceq, hcs1, hcs2]
  simpa using hpure

/-- Witness for the amended C6 theorem at `str` against itself. -/
theorem make_equal_amended_witness :
    mk_eqty rm0 30 freshCtxt .ty_str .ty_str = some (.ok (), freshCtxt) ↔
      (mk_subty rm0 30 freshCtxt .ty_str .ty_str = some (.ok (), freshCtxt) ∧
       mk_subty rm0 30 freshCtxt .ty_str .ty_str = some (.ok (), freshCtxt)) :=
  make_equal_amended rm0 .ty_str .ty_str rfl rfl freshCtxt rfl rfl 30 (by decide)

/-- Modelled from the spec's words: the substitution the resolver is
specified to pick for a type variable with bounds `b` — the lower bound when
present and not bot, else the upper bound when present, else the lower bound
(the bot case), else nothing. -/
def chooseBound (b : Bounds Ty) : Option Ty :=
  match b.lb with
  | some t =>
    if type_is_bot t = false then some t
    else
      match b.ub with
      | some u => some u
      | none => some t
  | none =>
    match b.ub with
    | some u => some u
    | none => none

/-- C7: when the resolver reaches a type variable not on the DFS stack it
substitutes exactly the bound `chooseBound` picks (lower bound unless bot,
else upper, else the bot lower bound) and recurses on it; with no bound at
all it returns the variable itself, recording an `unresolved_ty` error
exactly when `force` is set. -/
theorem resolve_ty_var_priority (deep force : Bool) (fuel : Nat) (c : Ctxt)
    (rs : RState) (vid : Nat) (hseen : vid ∉ rs.v_seen)
    (r : Nat) (B : Bounds Ty) (vb1 : VB Ty)
    (hget : get c.vb vid = some ((r, B), vb1)) :
    resolve_ty_var deep force (fuel + 1) c rs vid =
      match chooseBound B with
      | some t =>
        (match resolve1 deep force fuel { c with vb := vb1 }
            { rs with v_seen := vid :: rs.v_seen } t with
         | none => none
         | some ((t1, rs2), c2) =>
           some ((t1, { rs2 with v_seen := rs2.v_seen.tail }), c2))
      | none =>
        some ((.ty_var vid,
          { rs with err := if force then some (.unresolved_ty vid) else rs.err }),
          { c with vb := vb1 }) := by
  simp only [resolve_ty_var]
  rw [if_neg hseen, hget]
  dsimp only
  cases hlb : B.lb with
  | some t =>
    by_cases hbot : type_is_bot t = false
    · cases hres : resolve1 deep force fuel { c with vb := vb1 }
          { rs with v_seen := vid :: rs.v_seen } t with
      | none => simp [chooseBound, hlb, hbot, hres]
      | some x => obtain ⟨⟨t1, rs2⟩, c2⟩ := x; simp [chooseBound, hlb, hbot, hres]
    · have hbot' : type_is_bot t = true := by
        cases h : type_is_bot t
        · exact absurd h hbot
        · rfl
      cases hub : B.ub with
      | some u =>
        cases hres : resolve1 deep force fuel { c with vb := vb1 }
            { rs with v_seen := vid :: rs.v_seen } u with
        | none => simp [chooseBound, hlb, hub, hbot', hres]
        | some x => obtain ⟨⟨t1, rs2⟩, c2⟩ := x; simp [chooseBound, hlb, hub, hbot', hres]
      | none =>
        cases hres : resolve1 deep force fuel { c with vb := vb1 }
            { rs with v_seen := vid :: rs.v_seen } t with
        | none => simp [chooseBound, hlb, hub, hbot', hres]
        | some x => obtain ⟨⟨t1, rs2⟩, c2⟩ := x; simp [chooseBound, hlb, hub, hbot', hres]
  | none =>
    cases hub : B.ub with
    | some u =>
      cases hres : resolve1 deep force fuel { c with vb := vb1 }
          { rs with v_seen := vid :: rs.v_seen } u with
      | none => simp [chooseBound, hlb, hub, hres]
      | some x => obtain ⟨⟨t1, rs2⟩, c2⟩ := x; simp [chooseBound, hlb, hub, hres]
    | none => simp [chooseBound, hlb, hub]

/-- The empty resolve state. -/
def rs0 : RState := ⟨none, [], []⟩

/-- A context with one root type variable bounded below by `int`. -/
def c7s : Ctxt := ⟨⟨[(0, .bounded ⟨some (.ty_int 0), none⟩)], []⟩, ⟨[], []⟩, []⟩

/-- Witness for C7: on `c7s` the resolver substitutes the `int` lower bound
for variable 0. -/
theorem resolve_ty_var_priority_witness :
    resolve_ty_var true true (5 + 1) c7s rs0 0 = some ((.ty_int 0, rs0), c7s) := by
  rw [resolve_ty_var_priority true true 5 c7s rs0 0 (by decide) 0
    ⟨some (.ty_int 0), none⟩ c7s.vb (by decide)]
  rfl

/-- C8: `assign_tys` bound selection and cross-pollination.  A variable on
the `a` side stands for `select ub lb` of its bounds (upper preferred), a
variable on the `b` side for `select lb ub` (lower preferred), a ground side
for itself; and on the ground box-against-region-pointer pattern the call
requires `a <: @(b's pointee)` and the contraregion relation between the
borrow scope's region and `b`'s region, inserting `expr_id ↦ borrow_scope`
into the borrowings table exactly when both succeed, leaving the context
otherwise unchanged. -/
theorem assign_tys_characterization (rm : RM) (fuel : Nat) (anmnt : Assignment) :
    (∀ (c : Ctxt) (a_id : Nat) (b : Ty) (ra : Nat) (ba : Bounds Ty) (vb1 : VB Ty),
      get c.vb a_id = some ((ra, ba), vb1) → (∀ b_id, b ≠ .ty_var b_id) →
      assign_tys rm fuel c anmnt (.ty_var a_id) b =
        assign_tys_or_sub rm fuel { c with vb := vb1 } anmnt (.ty_var a_id) b
          (select ba.ub ba.lb) (some b)) ∧
    (∀ (c : Ctxt) (a : Ty) (b_id : Nat) (rb : Nat) (bb : Bounds Ty) (vb1 : VB Ty),
      a ≠ .ty_bot → (∀ a_id, a ≠ .ty_var a_id) →
      get c.vb b_id = some ((rb, bb), vb1) →
      assign_tys rm fuel c anmnt a (.ty_var b_id) =
        assign_tys_or_sub rm fuel { c with vb := vb1 } anmnt a (.ty_var b_id)
          (some a) (select bb.lb bb.ub)) ∧
    (∀ (c : Ctxt) (t1 : Ty) (m1 : Mutability) (r : Region) (t2 : Ty) (m2 : Mutability),
      type_needs_infer (.ty_box t1 m1) = false → type_needs_infer t2 = false →
      region_is_var r = false →
      8 * (tsize (.ty_box t1 m1) + tsize (.ty_box t2 m2)) + 7 ≤ fuel → 3 ≤ fuel →
      assign_tys rm fuel c anmnt (.ty_box t1 m1) (.ty_rptr r t2 m2) =
        some ((match sub_tys_g rm (.ty_box t1 m1) (.ty_box t2 m2) with
               | .error e => .error e
               | .ok _ =>
                 match contraregions_g rm .sub (.re_scope anmnt.borrow_scope) r with
                 | .error e => .error e
                 | .ok _ => .ok ()),
              (match sub_tys_g rm (.ty_box t1 m1) (.ty_box t2 m2) with
               | .error _ => c
               | .ok _ =>
                 match contraregions_g rm .sub (.re_scope anmnt.borrow_scope) r with
                 | .error _ => c
                 | .ok _ =>
                   { c with borrowings :=
                       (anmnt.expr_id, anmnt.borrow_scope) :: c.borrowings }))) := by
  refine ⟨?_, ?_, ?_⟩
  · intro c a_id b ra ba vb1 hget hnotvar
    cases b <;>
      first
      | (exact absurd rfl (hnotvar _))
      | (simp only [assign_tys]; rw [hget])
  · intro c a b_id rb bb vb1 hnotbot hnotvar hget
    cases a <;>
      first
      | (exact absurd rfl hnotbot)
      | (exact absurd rfl (hnotvar _))
      | (simp only [assign_tys]; rw [hget])
  · intro c t1 m1 r t2 m2 ha h2 hr hf7 hf3
    have hb2 : type_needs_infer (Ty.ty_box t2 m2) = false := by
      simpa [type_needs_infer] using h2
    simp only [assign_tys, assign_tys_or_sub, crosspollinate]
    rw [sub_tysC_ground rm (.ty_box t1 m1) (.ty_box t2 m2) ha hb2 c fuel hf7]
    cases hres : sub_tys_g rm (.ty_box t1 m1) (.ty_box t2 m2) with
    | error e => simp [chain, hres]
    | ok u =>
      simp only [chain, hres]
      rw [contraregionsC_ground rm .sub (.re_scope anmnt.borrow_scope) r rfl hr c fuel hf3]
      cases hcres : contraregions_g rm .sub (.re_scope anmnt.borrow_scope) r <;>
        simp [chain, hcres]

/-- A region oracle that answers scope 3 for every ancestor query. -/
def rm3 : RM := fun _ _ => some 3

/-- The assigned type `@int`. -/
def aT : Ty := .ty_box (.ty_int 0) .m_imm

/-- The assignment target `&scope(5).int`. -/
def bT : Ty := .ty_rptr (.re_scope 5) (.ty_int 0) .m_imm

/-- Groundness of an optional bound. -/
def oground : Option Ty → Bool
  | none => true
  | some t => !type_needs_infer t

/-- Size of an optional bound. -/
def osize : Option Ty → Nat
  | none => 0
  | some t => tsize t

/-- The pure value of `bnds` over the type combiner on ground optional
bounds. -/
def bnds_g (rm : RM) (a b : Option Ty) : ures :=
  match a, b with
  | some x, some y => sub_tys_g rm x y
  | _, _ => .ok ()

/-- The pure value of `merge_bnd` over a pure lattice operation on ground
optional bounds. -/
def merge_bnd_g (rm : RM) (cmb : Cmb) (a b : Option Ty) : cres (Option Ty) :=
  match a, b with
  | none, none => .ok none
  | some _, none => .ok a
  | none, some _ => .ok b
  | some x, some y =>
    match tys_g rm cmb x y with
    | .ok v => .ok (some v)
    | .error e => .error e

/-- The pure checks of `set_var_to_merged_bounds` on ground bounds, yielding
the merged bounds on success. -/
def svtmb_g (rm : RM) (a b : Bounds Ty) : cres (Bounds Ty) :=
  match bnds_g rm a.lb b.ub with
  | .error e => .error e
  | .ok _ =>
    match bnds_g rm b.lb a.ub with
    | .error e => .error e
    | .ok _ =>
      match merge_bnd_g rm .glb a.ub b.ub with
      | .error e => .error e
      | .ok ub1 =>
        match merge_bnd_g rm .lub a.lb b.lb with
        | .error e => .error e
        | .ok lb1 =>
          match bnds_g rm lb1 ub1 with
          | .error e => .error e
          | .ok _ => .ok ⟨lb1, ub1⟩

/-- On ground optional bounds `bnds` over the type combiner is pure. -/
theorem bnds_ground (rm : RM) (fuel : Nat) (x y : Option Ty) (c : Ctxt)
    (hx : oground x = true) (hy : oground y = true)
    (hf : 8 * (osize x + osize y) + 6 ≤ fuel) :
    bnds (mkTyOps (fun k c1 u v => tysC rm fuel k c1 u v)) c x y
      = some (bnds_g rm x y, c) := by
  cases x with
  | none => cases y <;> simp [bnds, bnds_g, mkTyOps]
  | some tx =>
    cases y with
    | none => simp [bnds, bnds_g, mkTyOps]
    | some ty2 =>
      have hx' : type_needs_infer tx = false := by simpa [oground] using hx
      have hy' : type_needs_infer ty2 = false := by simpa [oground] using hy
      simp only [bnds, mkTyOps]
      rw [tysC_ground rm tx ty2 hx' hy' .sub c fuel (by simp only [osize] at hf; omega)]
      cases hres : tys_g rm .sub tx ty2 <;>
        simp [chain, hres, bnds_g, sub_tys_g, hres]

/-- On ground optional bounds `merge_bnd` over a type combiner lattice
operation is pure. -/
theorem merge_bnd_ground (rm : RM) (fuel : Nat) (cmb : Cmb) (x y : Option Ty) (c : Ctxt)
    (hx : oground x = true) (hy : oground y = true)
    (hf : 8 * (osize x + osize y) + 6 ≤ fuel) :
    merge_bnd c x y (fun c1 u v => tysC rm fuel cmb c1 u v)
      = some (merge_bnd_g rm cmb x y, c) := by
  cases x with
  | none => cases y <;> simp [merge_bnd, merge_bnd_g]
  | some tx =>
    cases y with
    | none => simp [merge_bnd, merge_bnd_g]
    | some ty2 =>
      have hx' : type_needs_infer tx = false := by simpa [oground] using hx
      have hy' : type_needs_infer ty2 = false := by simpa [oground] using hy
      simp only [merge_bnd]
      rw [tysC_ground rm tx ty2 hx' hy' cmb c fuel (by simp only [osize] at hf; omega)]
      cases hres : tys_g rm cmb tx ty2 <;> simp [chain, hres, merge_bnd_g]

/-- A successful ground `merge_bnd_g` yields a ground bound no larger than
its inputs combined. -/
theorem merge_bnd_g_ok (rm : RM) (cmb : Cmb) (x y o : Option Ty)
    (hx : oground x = true) (hy : oground y = true)
    (h : merge_bnd_g rm cmb x y = .ok o) :
    oground o = true ∧ osize o ≤ osize x + osize y := by
  cases x with
  | none =>
    cases y with
    | none => cases h; exact ⟨rfl, by simp [osize]⟩
    | some ty2 => cases h; exact ⟨hy, by simp [osize]⟩
  | some tx =>
    cases y with
    | none => cases h; exact ⟨hx, by simp [osize]⟩
    | some ty2 =>
      have hx' : type_needs_infer tx = false := by simpa [oground] using hx
      have hy' : type_needs_infer ty2 = false := by simpa [oground] using hy
      simp only [merge_bnd_g] at h
      cases hres : tys_g rm cmb tx ty2 with
      | error e => rw [hres] at h; cases h
      | ok v =>
        rw [hres] at h
        cases h
        have hv := (combine_g_preserves rm (tsize tx + tsize ty2)).2.1
          tx ty2 v cmb (le_refl _) hx' hy' hres
        exact ⟨by simp [oground, hv.1], by simpa [osize] using hv.2⟩

/-- C3: on ground bounds `set_var_to_merged_bounds(v, A, B)` succeeds exactly
when the cross checks `A.lb <: B.ub` and `B.lb <: A.ub` hold, the glb of the
upper bounds and the lub of the lower bounds exist via `merge_bnd` (both-none
gives none, one-none gives the other, both-some applies the lattice
operation), and the merged `lb' <: ub'` holds; on success the variable's
stored value becomes `Bounded({lb', ub'})` through a journalled `set`, and on
any sub-failure the context is returned unchanged — no bounds are
committed. -/
theorem svtmb_ground (rm : RM) (fuel : Nat) (a b : Bounds Ty) (c : Ctxt) (v : Nat)
    (hga : oground a.lb = true) (hgau : oground a.ub = true)
    (hgb : oground b.lb = true) (hgbu : oground b.ub = true)
    (hf : 8 * (osize a.lb + osize a.ub + osize b.lb + osize b.ub) + 6 ≤ fuel) :
    set_var_to_merged_bounds (mkTyOps (fun k c1 u v1 => tysC rm fuel k c1 u v1)) c v a b
      = match svtmb_g rm a b with
        | .error e => some (.error e, c)
        | .ok nb =>
          match set c.vb v (.bounded nb) with
          | none => none
          | some vb1 => some (.ok (), { c with vb := vb1 }) := by
  simp only [set_var_to_merged_bounds]
  rw [show (mkTyOps (fun k c1 u v1 => tysC rm fuel k c1 u v1)).glbo
        = (fun c1 u v1 => tysC rm fuel .glb c1 u v1) from rfl,
      show (mkTyOps (fun k c1 u v1 => tysC rm fuel k c1 u v1)).lubo
        = (fun c1 u v1 => tysC rm fuel .lub c1 u v1) from rfl,
      show (mkTyOps (fun k c1 u v1 => tysC rm fuel k c1 u v1)).getvb = Ctxt.vb from rfl]
  rw [bnds_ground rm fuel a.lb b.ub c hga hgbu (by simp only [osize] at hf ⊢; omega)]
  cases h1 : bnds_g rm a.lb b.ub with
  | error e => simp [chain, svtmb_g, h1]
  | ok u1 =>
    simp only [chain]
    rw [bnds_ground rm fuel b.lb a.ub c hgb hgau (by omega)]
    cases h2 : bnds_g rm b.lb a.ub with
    | error e => simp [chain, svtmb_g, h1, h2]
    | ok u2 =>
      simp only [chain]
      rw [merge_bnd_ground rm fuel .glb a.ub b.ub c hgau hgbu (by omega)]
      cases h3 : merge_bnd_g rm .glb a.ub b.ub with
      | error e => simp [chain, svtmb_g, h1, h2, h3]
      | ok ub1 =>
        simp only [chain]
        rw [merge_bnd_ground rm fuel .lub a.lb b.lb c hga hgb (by omega)]
        cases h4 : merge_bnd_g rm .lub a.lb b.lb with
        | error e => simp [chain, svtmb_g, h1, h2, h3, h4]
        | ok lb1 =>
          simp only [chain]
          obtain ⟨hg3, hs3⟩ := merge_bnd_g_ok rm .glb a.ub b.ub ub1 hgau hgbu h3
          obtain ⟨hg4, hs4⟩ := merge_bnd_g_ok rm .lub a.lb b.lb lb1 hga hgb h4
          rw [bnds_ground rm fuel lb1 ub1 c hg4 hg3 (by omega)]
          cases h5 : bnds_g rm lb1 ub1 with
          | error e => simp [chain, svtmb_g, h1, h2, h3, h4, h5]
          | ok u5 =>
            simp only [chain]
            simp only [svtmb_g, h1, h2, h3, h4, h5]
            cases hset : set c.vb v (.bounded ⟨lb1, ub1⟩) with
            | none => rfl
            | some vb1 => rfl

/-- A context with one root type variable, id 4, with empty bounds. -/
def c3s : Ctxt := ⟨⟨[(4, .bounded ⟨none, none⟩)], []⟩, ⟨[], []⟩, []⟩

/-- Witness for C3: merging the bounds `A1` and the empty bounds at variable
4 writes `Bounded(A1)` with a journal entry. -/
theorem svtmb_ground_witness :
    set_var_to_merged_bounds (mkTyOps (fun k c1 u v1 => tysC rm0 30 k c1 u v1)) c3s 4
        A1 ⟨none, none⟩
      = some (.ok (), { c3s with vb := ⟨[(4, .bounded A1), (4, .bounded ⟨none, none⟩)],
          [(4, .bounded ⟨none, none⟩)]⟩ }) := by
  rw [svtmb_ground rm0 30 A1 ⟨none, none⟩ c3s 4 (by decide) (by decide) (by decide)
    (by decide) (by decide)]
  have hsv : svtmb_g rm0 A1 ⟨none, none⟩ = .ok A1 := by
    simp [svtmb_g, bnds_g, merge_bnd_g, A1]
  rw [hsv]
  rfl

/-- Witness for the cross-pollination part of C8: assigning `@int` to
`&scope(5).int` under borrow scope 3 succeeds and records the borrow. -/
theorem assign_tys_characterization_witness :
    assign_tys rm3 100 freshCtxt ⟨17, 3⟩ aT bT
      = some (.ok (), { freshCtxt with borrowings := [(17, 3)] }) := by
  rw [show assign_tys rm3 100 freshCtxt ⟨17, 3⟩ aT bT
        = assign_tys rm3 100 freshCtxt ⟨17, 3⟩ (.ty_box (.ty_int 0) .m_imm)
            (.ty_rptr (.re_scope 5) (.ty_int 0) .m_imm) from rfl,
      (assign_tys_characterization rm3 100 ⟨17, 3⟩).2.2 freshCtxt (.ty_int 0) .m_imm
        (.re_scope 5) (.ty_int 0) .m_imm (by decide) (by decide) (by decide) (by decide)
        (by decide)]
  have h1 : sub_tys_g rm3 (.ty_box (.ty_int 0) .m_imm) (.ty_box (.ty_int 0) .m_imm)
      = .ok () := by
    simp [sub_tys_g, tys_g.eq_def]
  have h2 : contraregions_g rm3 .sub (.re_scope 3) (.re_scope 5)
      = .ok (.re_scope 3) := by
    simp [contraregions_g, regions_g, sub_regions_res, lub_regions_g, rm3]
  rw [h1, h2]
  rfl

end Infer
